import Mathlib

/-!
Verification development for the `discoursegraphs` graph engine
(`src/discoursegraphs/discoursegraph.py`).

The Python class `DiscourseDocumentGraph` (a `networkx.MultiDiGraph`
subclass) is shallowly embedded here.  Python dictionaries are modelled as
association lists with Python's update semantics (an existing key keeps its
position and gets the new value, a new key is appended); Python sets of
strings are modelled as `Finset String`; the dynamic typing of the `layers`
argument is modelled by the `LayersArg` type so that the `isinstance`
assertions of the source can be stated faithfully.  Exceptions are modelled
by returning `Graph × Option Err`: the returned graph is the state at the
moment the exception is raised (Python mutates in place, so mutations that
happened before a raise persist).
-/

set_option autoImplicit false

namespace DiscourseGraphs

/-- The `EdgeTypes` enum of the source (`discoursegraph.py`, lines 21-28). -/
inductive EdgeTypes where
  | pointing_relation
  | dominance_relation
  | reverse_dominance_relation
  | spanning_relation
  | precedence_relation
deriving DecidableEq

/-- Attribute values stored in node/edge attribute dictionaries: token
strings, numeric weights, and `EdgeTypes` enum members.  An enum member and
its string value are distinct Python objects that compare unequal, which
this type reproduces (`Value.vet e ≠ Value.vstr s`). -/
inductive Value where
  | vstr (s : String)
  | vint (n : Int)
  | vet (e : EdgeTypes)
deriving DecidableEq

/-- The dynamically typed `layers` argument of `add_node`/`add_edge`:
a Python set given element-wise (a set literal has no duplicates, and
conversion to `Finset` ignores any), a Python set that is already known to
hold only strings (the only sets the library code itself constructs and
passes on, e.g. `add_edges_from` line 443), or some non-set value. -/
inductive LayersArg where
  | lset (xs : List Value)
  | lfin (s : Finset String)
  | lval (v : Value)
deriving DecidableEq

/-- `isinstance(v, str)` for attribute values, returning the string. -/
def strOf : Value → Option String
  | .vstr s => some s
  | _ => none

/-- The two `assert`s guarding `layers` in `add_node` (lines 101-104) and
`add_edge` (lines 275-278): `layers` must be a `set` and all its elements
must be strings.  An empty set passes both assertions. -/
def checkLayers : LayersArg → Option (Finset String)
  | .lset xs =>
      if xs.all (fun v => (strOf v).isSome) then
        some ((xs.filterMap strOf).toFinset)
      else none
  | .lfin s => some s
  | .lval _ => none

/-- Python dict lookup on an association list. -/
def dget {α β : Type} [DecidableEq α] (m : List (α × β)) (k : α) : Option β :=
  match m with
  | [] => none
  | p :: rest => if p.1 = k then some p.2 else dget rest k

/-- Python dict assignment `m[k] = v`: an existing key keeps its position
and gets the new value; a new key is appended at the end. -/
def dset {α β : Type} [DecidableEq α] (m : List (α × β)) (k : α) (v : β) :
    List (α × β) :=
  match m with
  | [] => [(k, v)]
  | p :: rest => if p.1 = k then (k, v) :: rest else p :: dset rest k v

/-- Python `m.update(u)`: assign every binding of `u` into `m`, in order. -/
def updMap {α β : Type} [DecidableEq α] (m u : List (α × β)) : List (α × β) :=
  u.foldl (fun acc p => dset acc p.1 p.2) m

/-- The attribute record of a node or edge: the mandatory `layers` set plus
the remaining attribute dictionary (which never holds a `"layers"` key; the
source always overwrites any such key with the `layers` argument before
storing, lines 105-116 and 279-290). -/
structure AttrRec where
  layers : Finset String
  attrs : List (String × Value)
deriving DecidableEq

/-- A keydict: the parallel edges of one ordered node pair, keyed by the
integer edge key. -/
abbrev Keydict := List (Nat × AttrRec)

/-- One adjacency level: neighbour id to keydict. -/
abbrev Adj := List (String × Keydict)

/-- The graph state of `DiscourseDocumentGraph`: the `node`, `succ` and
`pred` dictionaries of the underlying `MultiDiGraph`, plus the `tokens`,
`root`, `ns` and `name` attributes that reader components assign and that
`get_tokens`, `merge_graphs` and `add_precedence_relations` read. -/
structure Graph where
  node : List (String × AttrRec)
  succ : List (String × Adj)
  pred : List (String × Adj)
  tokens : List String
  root : String
  ns : String
  name : String
deriving DecidableEq

/-- The error taxonomy of the specification; `indexError` stands for the
`IndexError` a Python list subscript raises, `validation` also covers the
`AttributeError` that `add_edges_from` raises for a wrong-arity entry. -/
inductive Err where
  | validation
  | missingNode
  | tokenizationMismatch
  | indexError
  | precondition
deriving DecidableEq

/-- `n in self.succ`: the node-membership test used by the source. -/
def hasNode (g : Graph) (n : String) : Bool := (dget g.succ n).isSome

/-- Two-level dict lookup `x[a][b]` (`None` when either level misses). -/
def dget2 (x : List (String × Adj)) (a b : String) : Option Keydict :=
  (dget x a).bind (fun m => dget m b)

/-- Two-level dict assignment `x[a][b] = kd` (creating the inner dict when
absent; the source only reaches the absent case for node ids already added,
whose inner dict is empty). -/
def dset2 (x : List (String × Adj)) (a b : String) (kd : Keydict) :
    List (String × Adj) :=
  dset x a (dset ((dget x a).getD []) b kd)

/-- `self.adj[u][v]` keydict of a node pair (`succ` view). -/
def succAt (g : Graph) (u v : String) : Option Keydict := dget2 g.succ u v

/-- `self.pred[v][u]` keydict of a node pair (`pred` view). -/
def predAt (g : Graph) (v u : String) : Option Keydict := dget2 g.pred v u

/-- The stored record of the edge `(u, v, k)`, read through `succ`. -/
def edgeRec (g : Graph) (u v : String) (k : Nat) : Option AttrRec :=
  (succAt g u v).bind (fun kd => dget kd k)

/-- The stored record of a node. -/
def nodeRec (g : Graph) (n : String) : Option AttrRec := dget g.node n

/-- The `layers` set of a node (empty when the node is absent). -/
def nodeLayers (g : Graph) (n : String) : Finset String :=
  ((nodeRec g n).getD ⟨∅, []⟩).layers

/-- A non-layers attribute of a node. -/
def nodeAttr (g : Graph) (n k : String) : Option Value :=
  (nodeRec g n).bind (fun r => dget r.attrs k)

/-- The `layers` set of the edge `(u, v, k)` (empty when absent). -/
def edgeLayers (g : Graph) (u v : String) (k : Nat) : Finset String :=
  ((edgeRec g u v k).getD ⟨∅, []⟩).layers

/-- A non-layers attribute of the edge `(u, v, k)`. -/
def edgeAttr (g : Graph) (u v : String) (k : Nat) (a : String) : Option Value :=
  (edgeRec g u v k).bind (fun r => dget r.attrs a)

/-- Dropping any `"layers"` key from an attribute dictionary.  The source
guarantees this shape: line 106 (`attr.update({'layers': layers})`) makes
the positional `layers` win over any `"layers"` entry of `attr_dict`, and
the stored layer set is tracked separately in `AttrRec.layers`. -/
def stripLayers (attrs : List (String × Value)) : List (String × Value) :=
  attrs.filter (fun p => p.1 ≠ "layers")

/-- `DiscourseDocumentGraph.add_node` (lines 52-132).  The combined
`attr_dict`/`attr` dictionary is passed as `attrs`; any `"layers"` key in
it is overwritten by the positional `layers` (line 106), hence stripped.
If the node is new, `succ`/`pred` get empty adjacency dicts and the record
is stored verbatim (lines 118-122); otherwise the layer sets are unioned
and the other attributes updated (lines 123-132). -/
def add_node (g : Graph) (n : String) (layers : LayersArg)
    (attrs : List (String × Value)) : Graph × Option Err :=
  match checkLayers layers with
  | none => (g, some .validation)
  | some ls =>
    let attrs := stripLayers attrs
    if hasNode g n then
      let old := (dget g.node n).getD ⟨∅, []⟩
      ({g with node := dset g.node n ⟨old.layers ∪ ls, updMap old.attrs attrs⟩},
       none)
    else
      ({g with node := dset g.node n ⟨ls, attrs⟩,
               succ := dset g.succ n [],
               pred := dset g.pred n []}, none)

/-- The raw attribute dictionary of an `add_nodes_from`/`add_edges_from`
entry: the (possibly absent, possibly ill-typed) `layers` key, plus the
remaining attributes. -/
structure RawAttrs where
  layers : Option LayersArg
  attrs : List (String × Value)
deriving DecidableEq

/-- One iteration of the `add_nodes_from` loop (lines 177-199): validate
the entry's `layers`, then either create the node with the overlay applied
first and the entry's own attributes on top (lines 187-192), or — for an
existing node — update with the entry's attributes first and the overlay
`additional_attribs` afterwards, finally restoring the unioned layer set
(lines 193-199). -/
def add_node_entry (g : Graph) (overlay : List (String × Value))
    (e : String × RawAttrs) : Graph × Option Err :=
  match e.2.layers with
  | none => (g, some .validation)
  | some la =>
    match checkLayers la with
    | none => (g, some .validation)
    | some ls =>
      let nd := stripLayers e.2.attrs
      let ov := stripLayers overlay
      if hasNode g e.1 then
        let old := (dget g.node e.1).getD ⟨∅, []⟩
        let newRec : AttrRec := ⟨old.layers ∪ ls, updMap (updMap old.attrs nd) ov⟩
        ({g with node := dset g.node e.1 newRec}, none)
      else
        ({g with node := dset g.node e.1 ⟨ls, updMap ov nd⟩,
                 succ := dset g.succ e.1 [],
                 pred := dset g.pred e.1 []}, none)

/-- `DiscourseDocumentGraph.add_nodes_from` (lines 134-199): the entries
are processed in order; a failing assertion aborts the call, keeping every
mutation already made. -/
def add_nodes_from (g : Graph) (nodes : List (String × RawAttrs))
    (overlay : List (String × Value)) : Graph × Option Err :=
  match nodes with
  | [] => (g, none)
  | e :: rest =>
    match add_node_entry g overlay e with
    | (g', none) => add_nodes_from g' rest overlay
    | (g', some err) => (g', some err)

/-- The `while key in keydict: key += 1` loop of `add_edge` (lines
300-301), with explicit fuel; `freshKey` supplies enough fuel for the loop
to always reach a free key. -/
def whileIn (ks : List Nat) : Nat → Nat → Nat
  | 0, k => k
  | fuel+1, k => if k ∈ ks then whileIn ks fuel (k+1) else k

/-- The key chosen by `add_edge`/`add_edges_from` when `key` is unset:
start at `len(keydict)` and increment until unused (lines 296-301 and
428-433).  Note this is the first unused integer at or above
`len(keydict)`, not the globally lowest unused integer. -/
def freshKey (kd : Keydict) : Nat :=
  whileIn (kd.map Prod.fst) (kd.length + 1) kd.length

/-- `DiscourseDocumentGraph.add_edge` (lines 201-318).  In the source the
keydict object stored at `self.succ[u][v]` and at `self.pred[v][u]` is one
shared dict (created once at lines 316-318), so the in-place update of the
existing-pair branch (lines 294-308) is visible through both views; the
embedding writes the same new keydict into both maps. -/
def add_edge (g : Graph) (u v : String) (layers : LayersArg)
    (key : Option Nat) (attrs : List (String × Value)) : Graph × Option Err :=
  match checkLayers layers with
  | none => (g, some .validation)
  | some ls =>
    let attrs := stripLayers attrs
    if ¬ hasNode g u then (g, some .missingNode)
    else if ¬ hasNode g v then (g, some .missingNode)
    else
      match succAt g u v with
      | some kd =>
        let k := match key with
                 | some k => k
                 | none => freshKey kd
        let dd := (dget kd k).getD ⟨∅, []⟩
        let newRec : AttrRec := ⟨dd.layers ∪ ls, updMap dd.attrs attrs⟩
        ({g with succ := dset2 g.succ u v (dset kd k newRec),
                 pred := dset2 g.pred v u (dset kd k newRec)}, none)
      | none =>
        let k := key.getD 0
        let kd : Keydict := [(k, ⟨ls, attrs⟩)]
        ({g with succ := dset2 g.succ u v kd,
                 pred := dset2 g.pred v u kd}, none)

/-- An entry of the `add_edges_from` edge bunch: a 3-tuple, a 4-tuple, or a
tuple of any other arity (which only its length matters for: line 400-403
raise before looking inside). -/
inductive EBEntry where
  | e3 (u v : String) (dd : RawAttrs)
  | e4 (u v : String) (key : Nat) (dd : RawAttrs)
  | bad (arity : Nat)
deriving DecidableEq

/-- `attr_dict.get('layers', {})` of `add_edges_from` plus its validation
(lines 413-419).  The source skips the `isinstance` checks when the value
is falsy; for the empty set the result coincides with `checkLayers`, and no
other falsy value is exercised here. -/
def sharedLayers (shared : RawAttrs) : Option (Finset String) :=
  match shared.layers with
  | none => some ∅
  | some la => checkLayers la

/-- A `set` of strings turned back into a `layers` argument (used where the
source passes an already validated set on to `add_edge`, line 443). -/
def layersArgOfFinset (s : Finset String) : LayersArg := .lfin s

/-- The body of one `add_edges_from` iteration after arity destructuring
(lines 405-444): validate the entry's and the shared `layers`, resolve the
key against the current keydict (lines 424-433), merge the existing edge
attributes with the shared and entry attributes (lines 434-441; the
comprehension at 438-439 drops the `layers` key) and delegate to
`add_edge`. -/
def add_edge_resolved (g : Graph) (shared : RawAttrs) (u v : String)
    (key : Option Nat) (dd : RawAttrs) : Graph × Option Err :=
  match dd.layers with
  | none => (g, some .validation)
  | some la =>
    match checkLayers la with
    | none => (g, some .validation)
    | some ls =>
      match sharedLayers shared with
      | none => (g, some .validation)
      | some addl =>
        let newLayers := ls ∪ addl
        let kd := match dget g.succ u with
                  | some m => (dget m v).getD []
                  | none => []
        let k := match key with
                 | some k => k
                 | none => freshKey kd
        let dd0 := (dget kd k).getD ⟨∅, []⟩
        let updatedAttrs :=
          stripLayers (updMap (updMap dd0.attrs (stripLayers shared.attrs))
            (stripLayers dd.attrs))
        let allLayers := dd0.layers ∪ newLayers
        add_edge g u v (layersArgOfFinset allLayers) (some k) updatedAttrs

/-- Arity dispatch of the `add_edges_from` loop (lines 393-403). -/
def add_edge_entry (g : Graph) (shared : RawAttrs) (e : EBEntry) :
    Graph × Option Err :=
  match e with
  | .bad _ => (g, some .validation)
  | .e3 u v dd => add_edge_resolved g shared u v none dd
  | .e4 u v k dd => add_edge_resolved g shared u v (some k) dd

/-- `DiscourseDocumentGraph.add_edges_from` (lines 320-444): entries are
processed in order; a failing entry aborts the call, keeping every mutation
already made by earlier entries. -/
def add_edges_from (g : Graph) (ebunch : List EBEntry) (shared : RawAttrs) :
    Graph × Option Err :=
  match ebunch with
  | [] => (g, none)
  | e :: rest =>
    match add_edge_entry g shared e with
    | (g', none) => add_edges_from g' rest shared
    | (g', some err) => (g', some err)

/-- The layer set `{self.ns, self.ns+':precedence'}` used by
`add_precedence_relations` (lines 507, 512). -/
def precLayers (g : Graph) : LayersArg :=
  .lset [.vstr g.ns, .vstr (g.ns ++ ":precedence")]

/-- The `edge_type=EdgeTypes.precedence_relation` keyword of
`add_precedence_relations`. -/
def precAttrs : List (String × Value) :=
  [("edge_type", .vet .precedence_relation)]

/-- The loop of `add_precedence_relations` (lines 509-513): an edge from
each token to the next token in document order. -/
def addPrecChain (g : Graph) (prev : String) :
    List String → Graph × Option Err
  | [] => (g, none)
  | t :: rest =>
    match add_edge g prev t (precLayers g) none precAttrs with
    | (g', none) => addPrecChain g' t rest
    | (g', some e) => (g', some e)

/-- `DiscourseDocumentGraph.add_precedence_relations` (lines 498-513):
requires more than one token (line 504), adds root→first-token and then
consecutive token edges, each with `key` unset. -/
def add_precedence_relations (g : Graph) : Graph × Option Err :=
  match g.tokens with
  | [] => (g, some .precondition)
  | [_] => (g, some .precondition)
  | t0 :: rest =>
    match add_edge g g.root t0 (precLayers g) none precAttrs with
    | (g', none) => addPrecChain g' t0 rest
    | (g', some e) => (g', some e)

/-- `DiscourseDocumentGraph.get_tokens` (lines 446-463): the ordered
`(token id, namespace-qualified token attribute)` sequence.  The source
raises `KeyError` when the attribute is missing; the lookup result is kept
as an `Option` (every input exercised here carries the attribute). -/
def get_tokens (g : Graph) (token_attrib : String) :
    List (String × Option Value) :=
  g.tokens.map (fun tid =>
    (tid, (dget g.node tid).bind
      (fun r => dget r.attrs (g.ns ++ ":" ++ token_attrib))))

/-- The token sequence `merge_graphs` reads from `self` (lines 474-477):
the `tiger` namespace reads the `word` attribute instead of `token`. -/
def localTokens (g : Graph) : List (String × Option Value) :=
  if g.ns = "tiger" then get_tokens g "word" else get_tokens g "token"

/-- The token comparison loop of `merge_graphs` (lines 482-492): `self`'s
tokens are enumerated and `remote_tokens[i]` subscripted, so a too-short
remote list raises `IndexError`, a text mismatch raises the tokenization
mismatch `ValueError`, and local tokens beyond the remote length are never
compared.  On success it yields the `remote2local` id mapping. -/
def alignTokens : List (String × Option Value) →
    List (String × Option Value) → Except Err (List (String × String))
  | [], _ => .ok []
  | _ :: _, [] => .error .indexError
  | l :: ls, r :: rs =>
    if l.2 ≠ r.2 then .error .tokenizationMismatch
    else
      match alignTokens ls rs with
      | .ok m => .ok ((r.1, l.1) :: m)
      | .error e => .error e

/-- Modelled from the spec: `relabel_nodes` (module `discoursegraphs.relabel`,
imported at line 17 but not under `src/`) relabels all of the graph's node
ids through the mapping in place; ids absent from the mapping are
unchanged (spec section 4.2: "relabel *all* of `other`'s node ids through
that map in place"). -/
def relabel_nodes (g : Graph) (m : List (String × String)) : Graph :=
  let r := fun id => (dget m id).getD id
  { node := g.node.map (fun p => (r p.1, p.2)),
    succ := g.succ.map (fun p => (r p.1, p.2.map (fun q => (r q.1, q.2)))),
    pred := g.pred.map (fun p => (r p.1, p.2.map (fun q => (r q.1, q.2)))),
    tokens := g.tokens.map r,
    root := r g.root,
    ns := g.ns,
    name := g.name }

/-- A stored record turned back into a raw entry dictionary, as
`nodes(data=True)`/`edges(data=True)` present it (the stored `layers` is a
genuine set of strings, so its `LayersArg` always validates). -/
def rawOfRec (rec : AttrRec) : RawAttrs :=
  ⟨some (layersArgOfFinset rec.layers), rec.attrs⟩

/-- `document_graph.nodes(data=True)` as an `add_nodes_from` input. -/
def nodesData (g : Graph) : List (String × RawAttrs) :=
  g.node.map (fun p => (p.1, rawOfRec p.2))

/-- `document_graph.edges(data=True)` as an `add_edges_from` input: the
keys are not exported, so every entry is a 3-tuple. -/
def edgesData (g : Graph) : List EBEntry :=
  g.succ.flatMap (fun p =>
    p.2.flatMap (fun q =>
      q.2.map (fun kr => EBEntry.e3 p.1 q.1 (rawOfRec kr.2))))

/-- `DiscourseDocumentGraph.merge_graphs` (lines 465-496): compare the two
token sequences positionally, build the `remote2local` map, relabel the
other graph, and fold its nodes and edges into `self` via
`add_nodes_from`/`add_edges_from`. -/
def merge_graphs (g : Graph) (other : Graph) : Graph × Option Err :=
  match alignTokens (localTokens g) (get_tokens other "token") with
  | .error e => (g, some e)
  | .ok remote2local =>
    let other' := relabel_nodes other remote2local
    match add_nodes_from g (nodesData other') [] with
    | (g1, some e) => (g1, some e)
    | (g1, none) => add_edges_from g1 (edgesData other') ⟨none, []⟩

/-- A chunk of a natural sort key: a digit run (as its numeric value) or a
run of non-digit characters. -/
inductive Chunk where
  | cnum (n : Nat)
  | cstr (s : String)
deriving DecidableEq

/-- Numeric value of a decimal digit character. -/
def digitVal (c : Char) : Nat := c.toNat - ('0').toNat

/-- One step of splitting a string into digit/non-digit chunks (the chunk
under construction sits at the head of the accumulator). -/
def pushChunk (acc : List Chunk) (c : Char) : List Chunk :=
  if c.isDigit then
    match acc with
    | .cnum n :: rest => .cnum (n * 10 + digitVal c) :: rest
    | _ => .cnum (digitVal c) :: acc
  else
    match acc with
    | .cstr s :: rest => .cstr (s.push c) :: rest
    | _ => .cstr (String.mk [c]) :: acc

/-- Modelled from the spec: `natural_sort_key` (module `discoursegraphs.util`,
imported at line 18 but not under `src/`) — the "natural, numeric-aware
ordering of node identifiers" of spec section 4.3 under which `"t2"` sorts
before `"t10"`: a string is split into digit runs (compared numerically)
and non-digit runs (compared as strings). -/
def natural_sort_key (s : String) : List Chunk :=
  (s.data.foldl pushChunk []).reverse

/-- Strict comparison of two key chunks; as in the Python 2 runtime of the
source, every number sorts before every string. -/
def chunkLt : Chunk → Chunk → Bool
  | .cnum a, .cnum b => a < b
  | .cnum _, .cstr _ => true
  | .cstr _, .cnum _ => false
  | .cstr a, .cstr b => decide (a < b)

/-- Lexicographic strict comparison of chunk lists. -/
def chunkListLt : List Chunk → List Chunk → Bool
  | [], [] => false
  | [], _ :: _ => true
  | _ :: _, [] => false
  | x :: xs, y :: ys => if x = y then chunkListLt xs ys else chunkLt x y

/-- `natural_sort_key`-based strict order on node ids. -/
def natKeyLt (a b : String) : Bool :=
  chunkListLt (natural_sort_key a) (natural_sort_key b)

/-- Stable insertion into a list sorted by `natKeyLt`. -/
def insertNat (x : String) : List String → List String
  | [] => [x]
  | y :: ys => if natKeyLt y x then y :: insertNat x ys else x :: y :: ys

/-- `sorted(span, key=natural_sort_key)`: a stable sort by the natural
key, as Python's `sorted` performs. -/
def natSort (xs : List String) : List String := xs.foldr insertNat []

/-- `docgraph.out_edges_iter(n, data=True)`: every `(target, record)` of
the outgoing edges of `n`, neighbours in dict order, keys in dict order. -/
def out_edges (g : Graph) (n : String) : List (String × AttrRec) :=
  ((dget g.succ n).getD []).flatMap (fun q => q.2.map (fun kr => (q.1, kr.2)))

/-- The recursion of `get_span` (lines 533-554) with explicit fuel for the
call-stack recursion of the source (which has no cycle guard; the fuel
passed by `get_span` covers every terminating descent).  Faithful to the
source, `if from_id == to_id: pass` (lines 546-547) has no effect — the
guarded statement is `pass`, so self-loops are NOT skipped — and an edge
counts as pointing only when its `edge_type` equals the
`EdgeTypes.pointing_relation` enum member (line 549; a missing `edge_type`
would raise `KeyError` in the source and is treated as non-pointing here —
every input exercised carries the tag). -/
def spanFuel : Nat → Graph → String → List String
  | 0, _, _ => []
  | fuel+1, g, n =>
    let step := fun (acc : List String) (e : String × AttrRec) =>
      if dget e.2.attrs "edge_type" ≠ some (.vet .pointing_relation) then
        if (dget (((dget g.node e.1).getD ⟨∅, []⟩).attrs) (g.ns ++ ":token")).isSome
        then acc ++ [e.1]
        else acc ++ spanFuel fuel g e.1
      else acc
    natSort ((out_edges g n).foldl step [])

/-- `get_span(docgraph, node_id)` (lines 533-554). -/
def get_span (g : Graph) (n : String) : List String :=
  spanFuel (g.node.length + 1) g n

/-- `docgraph.edges(data=True)` iteration order: sources in dict order,
then neighbours, then keys. -/
def edgesList (g : Graph) : List (String × String × AttrRec) :=
  g.succ.flatMap (fun p =>
    p.2.flatMap (fun q => q.2.map (fun kr => (p.1, q.1, kr.2))))

/-- `select_edges_by_edgetype(docgraph, edge_type)` (lines 588-597):
filter all edges by equality of their `edge_type` attribute with the given
value (a missing `edge_type` would raise `KeyError`; here it simply does
not match — every input exercised carries the tag). -/
def select_edges_by_edgetype (g : Graph) (et : Value) :
    List (String × String) :=
  (edgesList g).filterMap (fun e =>
    if dget e.2.2.attrs "edge_type" = some et then some (e.1, e.2.1) else none)

/-- `select_nodes_by_layer(docgraph, layer)` (lines 567-585). -/
def select_nodes_by_layer (g : Graph) (layer : String) : List String :=
  g.node.filterMap (fun p => if layer ∈ p.2.layers then some p.1 else none)

/-- Building the `rel_dict` of `get_pointing_chains` (lines 637-639): a
`defaultdict(set)` from source id to its pointing targets, modelled with
first-insertion order for both the keys and the set elements. -/
def relDictAdd (d : List (String × List String)) (f t : String) :
    List (String × List String) :=
  match dget d f with
  | none => d ++ [(f, [t])]
  | some ts => dset d f (if t ∈ ts then ts else ts ++ [t])

/-- `__walk_chain(rel_dict, from_id)` (lines 600-626) with explicit fuel
for the call-stack recursion (for an acyclic `rel_dict` a fuel exceeding
the number of sources computes the same paths as the source). -/
def walk_chain (rel : List (String × List String)) :
    Nat → String → List (List String)
  | 0, _ => []
  | fuel+1, from_id =>
    ((dget rel from_id).getD []).foldl (fun acc to_id =>
      if (dget rel to_id).isSome then
        acc ++ (walk_chain rel fuel to_id).map (fun tail => from_id :: tail)
      else acc ++ [[from_id, to_id]]) []

/-- The chain-uniqueness filter of `get_pointing_chains` (lines 646-658):
a source's chain list is kept only when its start id appears in no chain
of any other source's chain list.  (`from_id_chains[0][0]` is read with a
default here; the source would raise `IndexError` on an empty chain list,
which cannot arise for a terminating, fuelled walk over a `rel_dict` key.) -/
def uniqueFilter (all : List (List (List String))) : List (List String) :=
  (List.range all.length).foldl (fun acc i =>
    let cl := all.getD i []
    let fromId := (cl.headD []).headD ""
    let others := all.take i ++ all.drop (i+1)
    if others.any (fun cl2 => cl2.any (fun ch => fromId ∈ ch)) then acc
    else acc ++ cl) []

/-- `get_pointing_chains(docgraph)` (lines 629-658).  Faithful to line
634, the pointing edges are selected by comparison with the *string*
`'points_to'`, not the `EdgeTypes.pointing_relation` enum member. -/
def get_pointing_chains (g : Graph) : List (List String) :=
  let prs := select_edges_by_edgetype g (.vstr "points_to")
  let rel := prs.foldl (fun d e => relDictAdd d e.1 e.2) []
  let allChains := rel.map (fun p => walk_chain rel (rel.length + 1) p.1)
  uniqueFilter allChains

/-- A call to the mutation API, for stating invariants over arbitrary
operation sequences. -/
inductive Op where
  | opNode (n : String) (la : LayersArg) (attrs : List (String × Value))
  | opNodesFrom (entries : List (String × RawAttrs))
      (overlay : List (String × Value))
  | opEdge (u v : String) (la : LayersArg) (key : Option Nat)
      (attrs : List (String × Value))
  | opEdgesFrom (ebunch : List EBEntry) (shared : RawAttrs)

/-- Running one operation; an exception leaves the state the operation had
reached (for these operations: unchanged on validation failures, partially
extended on a failing bunch entry). -/
def applyOp (g : Graph) : Op → Graph
  | .opNode n la attrs => (add_node g n la attrs).1
  | .opNodesFrom es ov => (add_nodes_from g es ov).1
  | .opEdge u v la k attrs => (add_edge g u v la k attrs).1
  | .opEdgesFrom eb sh => (add_edges_from g eb sh).1

/-- The freshly initialized `DiscourseDocumentGraph()` (lines 45-50): all
dictionaries empty; `tokens`, `root`, `ns`, `name` unset (readers assign
them later; the mutation API never reads them). -/
def emptyGraph : Graph := ⟨[], [], [], [], "", "", ""⟩

/-- Running a sequence of mutation operations. -/
def applyOps (g : Graph) (ops : List Op) : Graph :=
  ops.foldl applyOp g

/-- The successor/predecessor agreement invariant: every node pair stores
the same keydict in both adjacency views. -/
def SuccPredAligned (g : Graph) : Prop :=
  ∀ u v, dget2 g.succ u v = dget2 g.pred v u

/-- The stored record of the edge `(u, v, k)`, read through `pred`. -/
def predEdgeRec (g : Graph) (v u : String) (k : Nat) : Option AttrRec :=
  (predAt g v u).bind (fun kd => dget kd k)

/-- No dangling endpoints: every stored adjacency entry connects node ids
present in the graph. -/
def EdgeEndpointsExist (g : Graph) : Prop :=
  ∀ u v, dget2 g.succ u v ≠ none → hasNode g u = true ∧ hasNode g v = true

/-- The well-formedness the mutation API maintains: the two adjacency
views agree, and edges only reference existing nodes. -/
def Wf (g : Graph) : Prop := SuccPredAligned g ∧ EdgeEndpointsExist g

/-- Single-element layer set argument, the common case in the tests below. -/
def oneLayer (s : String) : LayersArg := .lset [.vstr s]

/-- Positional access into a token sequence (out-of-range positions yield
a placeholder pair; every use is guarded by a length bound). -/
def tokAt (l : List (String × Option Value)) (i : Nat) : String × Option Value :=
  l.getD i ("", none)

/-- An error result that is neither the tokenization mismatch nor the
`IndexError` of the merge token comparison. -/
def notMergeErr (o : Option Err) : Prop :=
  o ≠ some .tokenizationMismatch ∧ o ≠ some .indexError

/-- `match a with some v => some v | none => b`, for stating dictionary
update lemmas. -/
def oelse {γ : Type} (a b : Option γ) : Option γ :=
  match a with
  | some v => some v
  | none => b

/-- A sequence of `add_node` calls targeting the same node id. -/
def applyNodeCalls (g : Graph) (n : String)
    (calls : List (LayersArg × List (String × Value))) : Graph :=
  calls.foldl (fun h c => (add_node h n c.1 c.2).1) g

/-- A sequence of `add_edge` calls resolving to the same `(u, v, key)`. -/
def applyEdgeCalls (g : Graph) (u v : String) (k : Nat)
    (calls : List (LayersArg × List (String × Value))) : Graph :=
  calls.foldl (fun h c => (add_edge h u v c.1 (some k) c.2).1) g

/-- The union of every `layers` argument of a call sequence. -/
def unionAllLayers
    (calls : List (LayersArg × List (String × Value))) : Finset String :=
  calls.foldl (fun s c => s ∪ (checkLayers c.1).getD ∅) ∅

/-- The value for key `k` supplied by the most recent call that supplies
it (`none` when no call does). -/
def lastVal (calls : List (LayersArg × List (String × Value)))
    (k : String) : Option Value :=
  calls.foldl (fun acc c => oelse (dget c.2 k) acc) none

/-- A two-token document graph (root plus tokens `t1`, `t2`), the input of
the precedence idempotence test. -/
def CexPrecGraph : Graph :=
  let g := { emptyGraph with tokens := ["t1", "t2"], root := "root", ns := "ns" }
  let g := (add_node g "root" (oneLayer "ns") []).1
  let g := (add_node g "t1" (oneLayer "ns") [("ns:token", .vstr "x")]).1
  (add_node g "t2" (oneLayer "ns") [("ns:token", .vstr "y")]).1

/-- `CexPrecGraph` after one `add_precedence_relations` call. -/
def CexPrecOnce : Graph := (add_precedence_relations CexPrecGraph).1

/-- `CexPrecGraph` after two `add_precedence_relations` calls. -/
def CexPrecTwice : Graph := (add_precedence_relations CexPrecOnce).1

/-- The edge record every precedence edge of `CexPrecGraph` carries. -/
def precRecNS : AttrRec :=
  ⟨{"ns", "ns:precedence"}, [("edge_type", .vet .precedence_relation)]⟩

/-- A token node carrying a non-pointing self-loop (`t1 → t1` tagged as a
spanning relation), the `get_span` self-loop test input. -/
def CexSpanGraph : Graph :=
  let g := { emptyGraph with ns := "ns" }
  let g := (add_node g "t1" (oneLayer "ns") [("ns:token", .vstr "w")]).1
  (add_edge g "t1" "t1" (oneLayer "ns")
    none [("edge_type", .vet .spanning_relation)]).1

/-- A dominance tree `root → {t1, t10, t2}` with token ids inserted out of
natural order, the span sorting test input. -/
def CexSortGraph : Graph :=
  let g := { emptyGraph with ns := "ns" }
  let g := (add_node g "root" (oneLayer "ns") []).1
  let g := (add_node g "t1" (oneLayer "ns") [("ns:token", .vstr "a")]).1
  let g := (add_node g "t10" (oneLayer "ns") [("ns:token", .vstr "b")]).1
  let g := (add_node g "t2" (oneLayer "ns") [("ns:token", .vstr "c")]).1
  let g := (add_edge g "root" "t1" (oneLayer "ns")
    none [("edge_type", .vet .dominance_relation)]).1
  let g := (add_edge g "root" "t10" (oneLayer "ns")
    none [("edge_type", .vet .dominance_relation)]).1
  (add_edge g "root" "t2" (oneLayer "ns")
    none [("edge_type", .vet .dominance_relation)]).1

/-- A graph with one node whose `w` attribute tests the overlay precedence
of `add_nodes_from`. -/
def CexOverlayGraph : Graph := (add_node emptyGraph "1" (oneLayer "l") []).1

/-- The `add_nodes_from` overlay run: entry `("1", w=1)` for the existing
node and `("2", w=1)` for a new node, overlay `w=2`. -/
def CexOverlayRun : Graph × Option Err :=
  add_nodes_from CexOverlayGraph
    [("1", ⟨some (oneLayer "l"), [("w", .vint 1)]⟩),
     ("2", ⟨some (oneLayer "l"), [("w", .vint 1)]⟩)]
    [("w", .vint 2)]

/-- Two connected nodes whose pair carries the edge keys `{0, 5}`, the
fresh-key test input. -/
def CexKeysGraph : Graph :=
  let g := (add_node emptyGraph "u" (oneLayer "l") []).1
  let g := (add_node g "v" (oneLayer "l") []).1
  let g := (add_edge g "u" "v" (oneLayer "l") (some 0) []).1
  (add_edge g "u" "v" (oneLayer "l") (some 5) []).1

/-- `CexKeysGraph` after an `add_edge` with `key` unset. -/
def CexKeysRun : Graph :=
  (add_edge CexKeysGraph "u" "v" (oneLayer "l") none []).1

/-- The keydict stored for the pair `("u", "v")` of `CexKeysGraph`. -/
def CexKeysKD : Keydict := [(0, ⟨{"l"}, []⟩), (5, ⟨{"l"}, []⟩)]

/-- A one-token graph (`self` side of a merge). -/
def CexSelf : Graph :=
  let g := { emptyGraph with tokens := ["s1"], ns := "ns", name := "self" }
  (add_node g "s1" (oneLayer "ns") [("ns:token", .vstr "x")]).1

/-- A two-token graph whose first token text matches `CexSelf`'s only
token (`other` side of a merge with a token-count mismatch). -/
def CexOtherLonger : Graph :=
  let g := { emptyGraph with tokens := ["o1", "o2"], ns := "os", name := "other" }
  let g := (add_node g "o1" (oneLayer "os") [("os:token", .vstr "x")]).1
  (add_node g "o2" (oneLayer "os") [("os:token", .vstr "y")]).1

/-- A one-token graph whose token text differs from `CexSelf`'s. -/
def CexOtherMismatch : Graph :=
  let g := { emptyGraph with tokens := ["o1"], ns := "os", name := "other" }
  (add_node g "o1" (oneLayer "os") [("os:token", .vstr "z")]).1

/-- An empty-token-sequence graph (`other` side shorter than `self`). -/
def CexOtherShort : Graph :=
  { emptyGraph with tokens := [], ns := "os", name := "other" }

/-- Two plain nodes `u`, `v`, the `add_edges_from` partial-mutation test
input. -/
def CexTwoNodes : Graph :=
  let g := (add_node emptyGraph "u" (oneLayer "l") []).1
  (add_node g "v" (oneLayer "l") []).1

/-- The failing `add_edges_from` run: one valid entry, then a wrong-arity
entry. -/
def CexBunchRun : Graph × Option Err :=
  add_edges_from CexTwoNodes
    [.e3 "u" "v" ⟨some (oneLayer "x"), []⟩, .bad 2] ⟨none, []⟩

/-- Four nodes with pointing edges `a → b`, `b → c`, `d → c`, the chain
maximality test input. -/
def CexChainGraph : Graph :=
  let g := (add_node emptyGraph "a" (oneLayer "l") []).1
  let g := (add_node g "b" (oneLayer "l") []).1
  let g := (add_node g "c" (oneLayer "l") []).1
  let g := (add_node g "d" (oneLayer "l") []).1
  let g := (add_edge g "a" "b" (oneLayer "l")
    none [("edge_type", .vstr "points_to")]).1
  let g := (add_edge g "b" "c" (oneLayer "l")
    none [("edge_type", .vstr "points_to")]).1
  (add_edge g "d" "c" (oneLayer "l")
    none [("edge_type", .vstr "points_to")]).1

section DictLemmas

variable {α β : Type} [DecidableEq α]

theorem dget_dset (m : List (α × β)) (k : α) (v : β) (k' : α) :
    dget (dset m k v) k' = if k' = k then some v else dget m k' := by
  induction m with
  | nil =>
      by_cases h : k' = k
      · subst h; simp [dset, dget]
      · simp [dset, dget, h, Ne.symm h]
  | cons p rest ih =>
      by_cases h : p.1 = k
      · subst h
        by_cases h2 : k' = p.1
        · subst h2; simp [dset, dget]
        · simp [dset, dget, h2, Ne.symm h2]
      · by_cases h3 : p.1 = k'
        · subst h3
          simp [dset, dget, h, Ne.symm h]
        · simp [dset, dget, h, h3, ih]

theorem dget_eq_none_of_not_mem (m : List (α × β)) (k : α)
    (h : k ∉ m.map Prod.fst) : dget m k = none := by
  induction m with
  | nil => rfl
  | cons p rest ih =>
      simp only [List.map_cons, List.mem_cons] at h
      push_neg at h
      simp [dget, Ne.symm h.1, ih h.2]

theorem mem_of_dget_eq_some {m : List (α × β)} {k : α} {v : β}
    (h : dget m k = some v) : k ∈ m.map Prod.fst := by
  by_contra hn
  rw [dget_eq_none_of_not_mem m k hn] at h
  exact Option.noConfusion h

theorem dset_eq_append_of_not_mem (m : List (α × β)) (k : α) (v : β)
    (h : k ∉ m.map Prod.fst) : dset m k v = m ++ [(k, v)] := by
  induction m with
  | nil => rfl
  | cons p rest ih =>
      simp only [List.map_cons, List.mem_cons] at h
      push_neg at h
      simp [dset, Ne.symm h.1, ih h.2]

theorem dget_append (m m' : List (α × β)) (k : α) :
    dget (m ++ m') k = oelse (dget m k) (dget m' k) := by
  induction m with
  | nil => simp [dget, oelse]
  | cons p rest ih =>
      by_cases h : p.1 = k
      · simp [dget, h, oelse]
      · simp [dget, h, ih]

theorem dget_updMap (m u : List (α × β)) (k : α)
    (h : (u.map Prod.fst).Nodup) :
    dget (updMap m u) k = oelse (dget u k) (dget m k) := by
  induction u generalizing m with
  | nil => simp [updMap, dget, oelse]
  | cons p rest ih =>
      simp only [List.map_cons, List.nodup_cons] at h
      have step : updMap m (p :: rest) = updMap (dset m p.1 p.2) rest := rfl
      rw [step, ih _ h.2]
      cases hr : dget rest k with
      | some v =>
          have hk : k ∈ rest.map Prod.fst := mem_of_dget_eq_some hr
          have hne : ¬ p.1 = k := fun hh => h.1 (hh ▸ hk)
          simp [oelse, dget, hne, hr]
      | none =>
          by_cases hk : k = p.1
          · subst hk; simp [oelse, dget, dget_dset, hr]
          · simp [oelse, dget, dget_dset, hk, Ne.symm hk, hr]

theorem dget2_dset2 (x : List (String × Adj)) (a b : String) (kd : Keydict)
    (a' b' : String) :
    dget2 (dset2 x a b kd) a' b' =
      if a' = a ∧ b' = b then some kd else dget2 x a' b' := by
  unfold dget2 dset2
  rw [dget_dset]
  by_cases ha : a' = a
  · subst ha
    simp only [if_pos rfl, Option.bind_some, dget_dset]
    by_cases hb : b' = b
    · simp [hb, dget_dset]
    · simp only [hb, and_false, if_false]
      cases hx : dget x a' with
      | some m => simp [hx, dget_dset, hb]
      | none => simp [hx, dget, dget_dset, hb, Ne.symm hb]
  · simp [ha]

theorem dget_stripLayers (a : List (String × Value)) (k : String)
    (h : k ≠ "layers") : dget (stripLayers a) k = dget a k := by
  induction a with
  | nil => rfl
  | cons p rest ih =>
      by_cases hp : p.1 = "layers"
      · have hpk : ¬ p.1 = k := fun hh => h (hh ▸ hp)
        simp only [stripLayers, List.filter_cons] at ih ⊢
        simp only [hp, decide_not, ne_eq] at ih ⊢
        simp [dget, hpk, ih]
      · simp only [stripLayers, List.filter_cons] at ih ⊢
        simp only [hp, decide_not, ne_eq] at ih ⊢
        by_cases hk : p.1 = k
        · simp [dget, hk]
        · simp [dget, hk, ih]

theorem whileIn_spec (ks : List Nat) :
    ∀ fuel start, (∃ j, j ≤ fuel ∧ start + j ∉ ks) →
      whileIn ks fuel start ∉ ks ∧ start ≤ whileIn ks fuel start ∧
        ∀ m, start ≤ m → m < whileIn ks fuel start → m ∈ ks := by
  intro fuel
  induction fuel with
  | zero =>
      intro start h
      obtain ⟨j, hj, hout⟩ := h
      interval_cases j
      simp only [Nat.add_zero] at hout
      exact ⟨hout, le_refl _, fun m h1 h2 => absurd (lt_of_le_of_lt h1 h2) (lt_irrefl _)⟩
  | succ fuel ih =>
      intro start h
      obtain ⟨j, hj, hout⟩ := h
      by_cases hs : start ∈ ks
      · have hj0 : j ≠ 0 := by
          intro hh
          subst hh
          simp only [Nat.add_zero] at hout
          exact hout hs
        have hrec := ih (start + 1)
          ⟨j - 1, by omega, by
            have : start + 1 + (j - 1) = start + j := by omega
            rw [this]; exact hout⟩
        have hw : whileIn ks (fuel + 1) start = whileIn ks fuel (start + 1) := by
          simp [whileIn, hs]
        refine ⟨hw ▸ hrec.1, ?_, ?_⟩
        · rw [hw]
          exact le_trans (Nat.le_succ start) hrec.2.1
        · rw [hw]
          intro m h1 h2
          by_cases hm : m = start
          · exact hm ▸ hs
          · exact hrec.2.2 m (by omega) h2
      · have hw : whileIn ks (fuel + 1) start = start := by simp [whileIn, hs]
        rw [hw]
        exact ⟨hs, le_refl _, fun m h1 h2 => absurd (lt_of_le_of_lt h1 h2) (lt_irrefl _)⟩

theorem freshKey_spec (kd : Keydict) (h : (kd.map Prod.fst).Nodup) :
    freshKey kd ∉ kd.map Prod.fst ∧ kd.length ≤ freshKey kd ∧
      ∀ m, kd.length ≤ m → m < freshKey kd → m ∈ kd.map Prod.fst := by
  have hex : ∃ j, j ≤ kd.length + 1 ∧ kd.length + j ∉ kd.map Prod.fst := by
    by_contra hc
    push_neg at hc
    have hsub : (Finset.range (kd.length + 1)).image (fun j => kd.length + j) ⊆
        (kd.map Prod.fst).toFinset := by
      intro x hx
      simp only [Finset.mem_image, Finset.mem_range] at hx
      obtain ⟨j, hj, rfl⟩ := hx
      exact List.mem_toFinset.2 (hc j (by omega))
    have hcard := Finset.card_le_card hsub
    rw [Finset.card_image_of_injective _ (fun x y hxy => by omega),
        Finset.card_range, List.toFinset_card_of_nodup h,
        List.length_map] at hcard
    omega
  exact whileIn_spec (kd.map Prod.fst) (kd.length + 1) kd.length hex

end DictLemmas

/-- **C3** (amended).  The `layers` validation of `add_node` (lines
101-104) and `add_edge` (lines 275-278) rejects a non-set argument and a
set containing a non-string element, leaving the graph unchanged; but,
contrary to the claim, the *empty* set passes both `isinstance` assertions
and the operation succeeds (there is no non-emptiness check). -/
theorem add_node_add_edge_layers_validation :
    (∀ g n v attrs, add_node g n (.lval v) attrs = (g, some .validation)) ∧
    (∀ g n xs v attrs, v ∈ xs → strOf v = none →
      add_node g n (.lset xs) attrs = (g, some .validation)) ∧
    (∀ g u w x key attrs,
      add_edge g u w (.lval x) key attrs = (g, some .validation)) ∧
    (∀ g u w xs x key attrs, x ∈ xs → strOf x = none →
      add_edge g u w (.lset xs) key attrs = (g, some .validation)) ∧
    (∀ g n attrs, (add_node g n (.lset []) attrs).2 = none) ∧
    (∀ g u w key attrs,
      (add_edge g u w (.lset []) key attrs).2 ≠ some .validation) := by
  have hbad : ∀ (xs : List Value) (v : Value), v ∈ xs → strOf v = none →
      checkLayers (.lset xs) = none := by
    intro xs v hv hs
    have hfalse : xs.all (fun w => (strOf w).isSome) = false := by
      refine List.all_eq_false.2 ⟨v, hv, ?_⟩
      simp [hs]
    simp [checkLayers, hfalse]
  have hempty : checkLayers (.lset []) = some ∅ := rfl
  refine ⟨?_, ?_, ?_, ?_, ?_, ?_⟩
  · intro g n v attrs; rfl
  · intro g n xs v attrs hv hs
    simp [add_node, hbad xs v hv hs]
  · intro g u w x key attrs; rfl
  · intro g u w xs x key attrs hv hs
    simp [add_edge, hbad xs x hv hs]
  · intro g n attrs
    simp only [add_node, hempty]
    split <;> rfl
  · intro g u w key attrs
    simp only [add_edge, hempty]
    split
    · simp
    · split
      · simp
      · split <;> simp

/-- **C3** counterexample: `add_node` with the empty `layers` set does not
fail — no `ValidationError` is raised and the node is created, with an
empty stored layer set. -/
theorem add_node_accepts_empty_layers :
    (add_node emptyGraph "n" (.lset []) []).2 = none ∧
    (add_node emptyGraph "n" (.lset []) []).1 ≠ emptyGraph ∧
    hasNode (add_node emptyGraph "n" (.lset []) []).1 "n" = true ∧
    nodeLayers (add_node emptyGraph "n" (.lset []) []).1 "n" = ∅ := by
  decide

/-- **C3** witness: the amended validation theorem applied to a non-set
argument and to a set containing the non-string `1`. -/
theorem add_node_add_edge_layers_validation_witness :
    add_node emptyGraph "x" (.lval (.vint 3)) [] =
      (emptyGraph, some .validation) ∧
    add_edge emptyGraph "u" "v" (.lset [.vint 1]) none [] =
      (emptyGraph, some .validation) := by
  refine ⟨add_node_add_edge_layers_validation.1 emptyGraph "x" (.vint 3) [], ?_⟩
  exact add_node_add_edge_layers_validation.2.2.2.1 emptyGraph "u" "v"
    [.vint 1] (.vint 1) none [] (by decide) (by decide)

/-- **C4** counterexample: calling `add_precedence_relations()` twice on
the two-token graph `CexPrecGraph` does not reproduce the edge set of one
call — the second call creates duplicate parallel edges with the fresh key
`1` for the root→`t1` pair and the `t1`→`t2` pair. -/
theorem add_precedence_relations_not_idempotent :
    (succAt CexPrecOnce "root" "t1").map (fun kd => kd.map Prod.fst) =
      some [0] ∧
    (succAt CexPrecTwice "root" "t1").map (fun kd => kd.map Prod.fst) =
      some [0, 1] ∧
    (succAt CexPrecOnce "t1" "t2").map (fun kd => kd.map Prod.fst) =
      some [0] ∧
    (succAt CexPrecTwice "t1" "t2").map (fun kd => kd.map Prod.fst) =
      some [0, 1] := by
  decide

/-- **C4** (amended).  Because `add_edge` with `key` unset always creates
a new parallel edge when the pair is already connected (lines 294-301),
the second `add_precedence_relations()` call duplicates every precedence
edge under the fresh key `1` with identical layers and `edge_type`,
instead of merging into the existing edges. -/
theorem add_precedence_relations_duplicates_edges :
    (add_precedence_relations CexPrecGraph).2 = none ∧
    (add_precedence_relations CexPrecOnce).2 = none ∧
    succAt CexPrecOnce "root" "t1" = some [(0, precRecNS)] ∧
    succAt CexPrecTwice "root" "t1" =
      some [(0, precRecNS), (1, precRecNS)] ∧
    succAt CexPrecOnce "t1" "t2" = some [(0, precRecNS)] ∧
    succAt CexPrecTwice "t1" "t2" =
      some [(0, precRecNS), (1, precRecNS)] := by
  decide

/-- **C5**: `get_span` does not skip self-loop edges.  On the token `t1`
that carries a non-pointing self-loop, the source's `if from_id == to_id:
pass` (lines 546-547) guards only a `pass` statement, so the self-loop
target is collected and `get_span` returns `["t1"]` where the claim (and
the source's own comment `# ignore self-loops`) requires `[]`. -/
theorem get_span_collects_selfloop :
    get_span CexSpanGraph "t1" = ["t1"] := by decide

/-- **C5** auxiliary: on the dominance tree `root → {t1, t10, t2}` (with
`t10` inserted before `t2`), `get_span` does return the token ids in
natural, numeric-aware order — this part of the claim holds. -/
theorem get_span_sorted_naturally :
    get_span CexSortGraph "root" = ["t1", "t2", "t10"] := by decide

/-- **C8**: in `add_nodes_from`, the shared overlay attributes are applied
*after* the entry's own attributes for an existing node (lines 197-198),
so the overlay value `w=2` overwrites the entry's explicit `w=1` — contrary
to the claim and to the method's own docstring ("Node attributes specified
in nodes as a tuple take precedence over attributes specified generally",
lines 141-144).  For a new node the entry's own value wins as documented. -/
theorem add_nodes_from_overlay_overrides_existing :
    CexOverlayRun.2 = none ∧
    nodeAttr CexOverlayRun.1 "1" "w" = some (.vint 2) ∧
    nodeAttr CexOverlayRun.1 "2" "w" = some (.vint 1) := by
  decide

/-- **C6**: for every graph whose pointing-relation edges (the edges
`select_edges_by_edgetype` selects for `'points_to'`, in iteration order)
are exactly `a→b`, `b→c`, `d→c`, `get_pointing_chains` returns exactly the
maximal chains `[a,b,c]` and `[d,c]`; the subsumed partial chain `[b,c]`
is generated for source `b` but discarded because `b` occurs in a chain of
source `a`. -/
theorem get_pointing_chains_maximal (g : Graph)
    (h : select_edges_by_edgetype g (.vstr "points_to") =
      [("a", "b"), ("b", "c"), ("d", "c")]) :
    get_pointing_chains g = [["a", "b", "c"], ["d", "c"]] := by
  simp only [get_pointing_chains, h]
  rfl

/-- **C6** witness: the chain theorem applied to the concrete graph with
pointing edges `a→b`, `b→c`, `d→c`. -/
theorem get_pointing_chains_maximal_witness :
    get_pointing_chains CexChainGraph = [["a", "b", "c"], ["d", "c"]] :=
  get_pointing_chains_maximal CexChainGraph (by decide)

/-- **C7** (amended).  When `key` is unset and the pair `(u, v)` is
already connected, `add_edge` assigns the new parallel edge the lowest
integer key that is **at or above `len(keydict)`** and not yet used (lines
296-301) — which equals the lowest unused integer only when the existing
keys have no gap below `len(keydict)`.  The new edge is appended with that
key, carrying exactly the given layers. -/
theorem add_edge_fresh_key_assignment (g : Graph) (u v : String)
    (la : LayersArg) (ls : Finset String) (attrs : List (String × Value))
    (kd : Keydict)
    (hl : checkLayers la = some ls)
    (hv : hasNode g v = true)
    (hkd : succAt g u v = some kd)
    (hne : kd ≠ [])
    (hnd : (kd.map Prod.fst).Nodup) :
    (add_edge g u v la none attrs).2 = none ∧
    (succAt (add_edge g u v la none attrs).1 u v).map
        (fun l => l.map Prod.fst) =
      some (kd.map Prod.fst ++ [freshKey kd]) ∧
    edgeLayers (add_edge g u v la none attrs).1 u v (freshKey kd) = ls ∧
    freshKey kd ∉ kd.map Prod.fst ∧
    kd.length ≤ freshKey kd ∧
    (∀ m, kd.length ≤ m → m < freshKey kd → m ∈ kd.map Prod.fst) := by
  have hfk := freshKey_spec kd hnd
  have hu : hasNode g u = true := by
    unfold succAt dget2 at hkd
    unfold hasNode
    cases hx : dget g.succ u with
    | some m => rfl
    | none => rw [hx] at hkd; exact Option.noConfusion hkd
  have hget : dget kd (freshKey kd) = none :=
    dget_eq_none_of_not_mem kd (freshKey kd) hfk.1
  have happ : dset kd (freshKey kd) ⟨∅ ∪ ls, updMap [] (stripLayers attrs)⟩ =
      kd ++ [(freshKey kd, ⟨∅ ∪ ls, updMap [] (stripLayers attrs)⟩)] :=
    dset_eq_append_of_not_mem kd (freshKey kd) _ hfk.1
  have hres : add_edge g u v la none attrs =
      ({g with
          succ := dset2 g.succ u v
            (dset kd (freshKey kd) ⟨∅ ∪ ls, updMap [] (stripLayers attrs)⟩),
          pred := dset2 g.pred v u
            (dset kd (freshKey kd) ⟨∅ ∪ ls, updMap [] (stripLayers attrs)⟩)},
        none) := by
    simp only [add_edge, hl, hu, hv, Bool.not_true, hkd, hget]
    rfl
  have hsucc : succAt (add_edge g u v la none attrs).1 u v =
      some (kd ++ [(freshKey kd, ⟨∅ ∪ ls, updMap [] (stripLayers attrs)⟩)]) := by
    rw [hres, happ]
    show dget2 (dset2 g.succ u v _) u v = _
    rw [dget2_dset2]
    simp
  refine ⟨by rw [hres], ?_, ?_, hfk.1, hfk.2.1, hfk.2.2⟩
  · rw [hsucc]
    simp
  · have hlook : dget (kd ++ [(freshKey kd,
        (⟨∅ ∪ ls, updMap [] (stripLayers attrs)⟩ : AttrRec))]) (freshKey kd) =
        some ⟨∅ ∪ ls, updMap [] (stripLayers attrs)⟩ := by
      rw [dget_append, hget]
      simp [oelse, dget]
    unfold edgeLayers edgeRec
    rw [hsucc]
    simp only [Option.some_bind]
    rw [hlook]
    simp

/-- **C7** counterexample: on a pair with existing keys `{0, 5}`, the
`add_edge` call with `key` unset assigns key `2` (the first unused integer
at or above `len(keydict) = 2`), not the claim's lowest unused key `1`,
which stays unused. -/
theorem add_edge_key_not_lowest_unused :
    (succAt CexKeysGraph "u" "v").map (fun kd => kd.map Prod.fst) =
      some [0, 5] ∧
    (succAt CexKeysRun "u" "v").map (fun kd => kd.map Prod.fst) =
      some [0, 5, 2] ∧
    edgeRec CexKeysRun "u" "v" 1 = none := by
  decide

/-- **C7** witness: the fresh-key theorem applied to `CexKeysGraph`, whose
pair `("u", "v")` holds the keys `{0, 5}`; the assigned key evaluates
to `2`. -/
theorem add_edge_fresh_key_assignment_witness :
    ((add_edge CexKeysGraph "u" "v" (oneLayer "l") none []).2 = none ∧
      (succAt (add_edge CexKeysGraph "u" "v" (oneLayer "l") none []).1
          "u" "v").map (fun l => l.map Prod.fst) =
        some (CexKeysKD.map Prod.fst ++ [freshKey CexKeysKD]) ∧
      edgeLayers (add_edge CexKeysGraph "u" "v" (oneLayer "l") none []).1
          "u" "v" (freshKey CexKeysKD) = {"l"} ∧
      freshKey CexKeysKD ∉ CexKeysKD.map Prod.fst ∧
      CexKeysKD.length ≤ freshKey CexKeysKD ∧
      (∀ m, CexKeysKD.length ≤ m → m < freshKey CexKeysKD →
        m ∈ CexKeysKD.map Prod.fst)) ∧
    freshKey CexKeysKD = 2 :=
  ⟨add_edge_fresh_key_assignment CexKeysGraph "u" "v" (oneLayer "l") {"l"}
      [] CexKeysKD (by decide) (by decide) (by decide) (by decide)
      (by decide),
   by decide⟩

/-- **C9** (amended).  `add_edges_from` validates each entry only when the
loop reaches it: a wrong-arity entry or an entry with a missing or invalid
`layers` aborts the call with the graph unchanged only when it is reached
first — all entries processed before it stay applied (the fold
decomposes over a successfully processed prefix). -/
theorem add_edges_from_partial_mutation :
    (∀ g pre rest shared, (add_edges_from g pre shared).2 = none →
      add_edges_from g (pre ++ rest) shared =
        add_edges_from (add_edges_from g pre shared).1 rest shared) ∧
    (∀ g n rest shared,
      add_edges_from g (.bad n :: rest) shared = (g, some .validation)) ∧
    (∀ g u v attrs rest shared,
      add_edges_from g (.e3 u v ⟨none, attrs⟩ :: rest) shared =
        (g, some .validation)) ∧
    (∀ g u v la attrs rest shared, checkLayers la = none →
      add_edges_from g (.e3 u v ⟨some la, attrs⟩ :: rest) shared =
        (g, some .validation)) := by
  refine ⟨?_, ?_, ?_, ?_⟩
  · intro g pre
    induction pre generalizing g with
    | nil => intro rest shared _; rfl
    | cons e pre ih =>
        intro rest shared h
        simp only [add_edges_from, List.cons_append] at h ⊢
        cases he : add_edge_entry g shared e with
        | mk g' r =>
            cases r with
            | none => simp only [he] at h ⊢; exact ih g' rest shared h
            | some err => simp only [he] at h; exact absurd h (by simp)
  · intro g n rest shared; rfl
  · intro g u v attrs rest shared; rfl
  · intro g u v la attrs rest shared h
    simp [add_edges_from, add_edge_entry, add_edge_resolved, h]

/-- **C9** counterexample: a bunch whose first entry is valid and whose
second has wrong arity fails with the validation error, yet the edge the
first entry created remains — the graph is *not* left unchanged. -/
theorem add_edges_from_keeps_prefix_mutations :
    CexBunchRun.2 = some .validation ∧
    (succAt CexBunchRun.1 "u" "v").isSome = true ∧
    succAt CexTwoNodes "u" "v" = none ∧
    CexBunchRun.1 ≠ CexTwoNodes := by
  decide

theorem dget2_dset_nil (x : List (String × Adj)) (n a b : String) :
    dget2 (dset x n []) a b = if a = n then none else dget2 x a b := by
  unfold dget2
  rw [dget_dset]
  by_cases ha : a = n
  · simp [ha, dget]
  · simp [ha]

theorem isSome_dget_dset (x : List (String × Adj)) (n w : String)
    (inner : Adj) (h : (dget x w).isSome = true ∨ w = n) :
    (dget (dset x n inner) w).isSome = true := by
  rw [dget_dset]
  by_cases hw : w = n
  · simp [hw]
  · rcases h with h | h
    · simpa [hw] using h
    · exact absurd h hw

theorem wf_empty : Wf emptyGraph := by
  constructor
  · intro u v; rfl
  · intro u v h; exact absurd rfl h

theorem wf_add_blank (g : Graph) (n : String) (N : List (String × AttrRec))
    (h : Wf g) (hn : ¬ hasNode g n = true) :
    Wf (Graph.mk N (dset g.succ n []) (dset g.pred n [])
      g.tokens g.root g.ns g.name) := by
  have hsnone : dget g.succ n = none := by
    unfold hasNode at hn
    cases hx : dget g.succ n with
    | some m => rw [hx] at hn; simp at hn
    | none => rfl
  constructor
  · intro a b
    show dget2 (dset g.succ n []) a b = dget2 (dset g.pred n []) b a
    rw [dget2_dset_nil, dget2_dset_nil]
    by_cases ha : a = n
    · rw [if_pos ha]
      by_cases hb : b = n
      · rw [if_pos hb]
      · rw [if_neg hb, ha]
        have h1 : dget2 g.pred b n = dget2 g.succ n b := (h.1 n b).symm
        have h2 : dget2 g.succ n b = none := by
          unfold dget2; rw [hsnone]; rfl
        rw [h1, h2]
    · rw [if_neg ha]
      by_cases hb : b = n
      · rw [if_pos hb, hb]
        cases hx : dget2 g.succ a n with
        | none => rfl
        | some kd =>
            have hcl := h.2 a n (by rw [hx]; simp)
            exact absurd hcl.2 hn
      · rw [if_neg hb]; exact h.1 a b
  · intro a b hne
    have hne' : dget2 (dset g.succ n []) a b ≠ none := hne
    rw [dget2_dset_nil] at hne'
    by_cases ha : a = n
    · simp [ha] at hne'
    · rw [if_neg ha] at hne'
      have hcl := h.2 a b hne'
      constructor
      · exact isSome_dget_dset g.succ n a [] (Or.inl hcl.1)
      · exact isSome_dget_dset g.succ n b [] (Or.inl hcl.2)

theorem wf_set_pair (g : Graph) (u v : String) (KD : Keydict)
    (hu : hasNode g u = true) (hv : hasNode g v = true) (h : Wf g) :
    Wf (Graph.mk g.node (dset2 g.succ u v KD) (dset2 g.pred v u KD)
      g.tokens g.root g.ns g.name) := by
  constructor
  · intro a b
    show dget2 (dset2 g.succ u v KD) a b = dget2 (dset2 g.pred v u KD) b a
    rw [dget2_dset2, dget2_dset2]
    by_cases hab : a = u ∧ b = v
    · have hba : b = v ∧ a = u := ⟨hab.2, hab.1⟩
      rw [if_pos hab, if_pos hba]
    · have hba : ¬ (b = v ∧ a = u) := fun hh => hab ⟨hh.2, hh.1⟩
      rw [if_neg hab, if_neg hba]
      exact h.1 a b
  · intro a b hne
    have hne' : dget2 (dset2 g.succ u v KD) a b ≠ none := hne
    rw [dget2_dset2] at hne'
    show (dget (dset2 g.succ u v KD) a).isSome = true ∧
      (dget (dset2 g.succ u v KD) b).isSome = true
    unfold dset2
    by_cases hab : a = u ∧ b = v
    · exact ⟨isSome_dget_dset _ u a _ (Or.inr hab.1),
        isSome_dget_dset _ u b _ (Or.inl (hab.2 ▸ hv))⟩
    · rw [if_neg hab] at hne'
      have hcl := h.2 a b hne'
      exact ⟨isSome_dget_dset _ u a _ (Or.inl hcl.1),
        isSome_dget_dset _ u b _ (Or.inl hcl.2)⟩

theorem wf_add_node (g : Graph) (n : String) (la : LayersArg)
    (attrs : List (String × Value)) (h : Wf g) :
    Wf (add_node g n la attrs).1 := by
  unfold add_node
  split
  · exact h
  · dsimp only
    by_cases h1 : hasNode g n = true
    · rw [if_pos h1]; exact h
    · rw [if_neg h1]; exact wf_add_blank g n _ h h1

theorem wf_add_node_entry (g : Graph) (overlay : List (String × Value))
    (e : String × RawAttrs) (h : Wf g) :
    Wf (add_node_entry g overlay e).1 := by
  unfold add_node_entry
  split
  · exact h
  · split
    · exact h
    · dsimp only
      by_cases h1 : hasNode g e.1 = true
      · rw [if_pos h1]; exact h
      · rw [if_neg h1]; exact wf_add_blank g e.1 _ h h1

theorem wf_add_edge (g : Graph) (u v : String) (la : LayersArg)
    (key : Option Nat) (attrs : List (String × Value)) (h : Wf g) :
    Wf (add_edge g u v la key attrs).1 := by
  unfold add_edge
  split
  · exact h
  · dsimp only
    by_cases hu : hasNode g u = true
    · by_cases hv : hasNode g v = true
      · rw [if_neg (not_not_intro hu), if_neg (not_not_intro hv)]
        split
        · exact wf_set_pair g u v _ hu hv h
        · exact wf_set_pair g u v _ hu hv h
      · rw [if_neg (not_not_intro hu), if_pos hv]
        exact h
    · rw [if_pos hu]
      exact h

theorem wf_add_edge_resolved (g : Graph) (shared : RawAttrs) (u v : String)
    (key : Option Nat) (dd : RawAttrs) (h : Wf g) :
    Wf (add_edge_resolved g shared u v key dd).1 := by
  unfold add_edge_resolved
  split
  · exact h
  · split
    · exact h
    · split
      · exact h
      · exact wf_add_edge g u v _ _ _ h

theorem wf_add_edge_entry (g : Graph) (shared : RawAttrs) (e : EBEntry)
    (h : Wf g) : Wf (add_edge_entry g shared e).1 := by
  cases e with
  | bad n => exact h
  | e3 u v dd => exact wf_add_edge_resolved g shared u v none dd h
  | e4 u v k dd => exact wf_add_edge_resolved g shared u v (some k) dd h

theorem wf_add_nodes_from (entries : List (String × RawAttrs)) :
    ∀ (g : Graph) (overlay : List (String × Value)), Wf g →
      Wf (add_nodes_from g entries overlay).1 := by
  induction entries with
  | nil => intro g overlay h; exact h
  | cons e rest ih =>
      intro g overlay h
      simp only [add_nodes_from]
      cases he : add_node_entry g overlay e with
      | mk g' r =>
          have hg' : Wf g' := by
            have hh := wf_add_node_entry g overlay e h
            rw [he] at hh
            exact hh
          cases r with
          | none => exact ih g' overlay hg'
          | some err => exact hg'

theorem wf_add_edges_from (ebunch : List EBEntry) :
    ∀ (g : Graph) (shared : RawAttrs), Wf g →
      Wf (add_edges_from g ebunch shared).1 := by
  induction ebunch with
  | nil => intro g shared h; exact h
  | cons e rest ih =>
      intro g shared h
      simp only [add_edges_from]
      cases he : add_edge_entry g shared e with
      | mk g' r =>
          have hg' : Wf g' := by
            have hh := wf_add_edge_entry g shared e h
            rw [he] at hh
            exact hh
          cases r with
          | none => exact ih g' shared hg'
          | some err => exact hg'

theorem wf_applyOp (g : Graph) (op : Op) (h : Wf g) : Wf (applyOp g op) := by
  cases op with
  | opNode n la attrs => exact wf_add_node g n la attrs h
  | opNodesFrom es ov => exact wf_add_nodes_from es g ov h
  | opEdge u v la k attrs => exact wf_add_edge g u v la k attrs h
  | opEdgesFrom eb sh => exact wf_add_edges_from eb g sh h

theorem wf_applyOps (ops : List Op) :
    ∀ g : Graph, Wf g → Wf (applyOps g ops) := by
  induction ops with
  | nil => intro g h; exact h
  | cons op rest ih =>
      intro g h
      exact ih (applyOp g op) (wf_applyOp g op h)

/-- **C10**: after every sequence of `add_node`, `add_nodes_from`,
`add_edge` and `add_edges_from` operations on a fresh graph, the successor
and predecessor adjacency structures agree: an edge record is stored as
`succ[u][v][k] = d` exactly when it is stored as `pred[v][u][k] = d`.  (In
the source, the keydict of a pair is one shared dict object reachable from
both views, so every in-place edge update is visible through both; the
embedding maintains both maps and proves they never diverge.) -/
theorem succ_pred_views_agree (ops : List Op) (u v : String) (k : Nat)
    (d : AttrRec) :
    edgeRec (applyOps emptyGraph ops) u v k = some d ↔
      predEdgeRec (applyOps emptyGraph ops) v u k = some d := by
  have hw := wf_applyOps ops emptyGraph wf_empty
  unfold edgeRec predEdgeRec succAt predAt
  rw [hw.1 u v]

theorem alignTokens_mismatch :
    ∀ (i : Nat) (L R : List (String × Option Value)), i < L.length →
      i < R.length → (tokAt L i).2 ≠ (tokAt R i).2 →
      (∀ j, j < i → (tokAt L j).2 = (tokAt R j).2) →
      alignTokens L R = .error .tokenizationMismatch := by
  intro i
  induction i with
  | zero =>
      intro L R hL hR hdiff _
      cases L with
      | nil => simp at hL
      | cons l ls =>
          cases R with
          | nil => simp at hR
          | cons r rs =>
              have : l.2 ≠ r.2 := by
                simpa [tokAt, List.getD] using hdiff
              simp [alignTokens, this]
  | succ i ih =>
      intro L R hL hR hdiff hall
      cases L with
      | nil => simp at hL
      | cons l ls =>
          cases R with
          | nil => simp at hR
          | cons r rs =>
              have h0 : l.2 = r.2 := by
                have := hall 0 (Nat.succ_pos i)
                simpa [tokAt, List.getD] using this
              have htail : alignTokens ls rs = .error .tokenizationMismatch := by
                refine ih ls rs (by simpa using hL) (by simpa using hR) ?_ ?_
                · simpa [tokAt, List.getD] using hdiff
                · intro j hj
                  have := hall (j + 1) (by omega)
                  simpa [tokAt, List.getD] using this
              simp [alignTokens, h0, htail]

theorem alignTokens_short :
    ∀ (R L : List (String × Option Value)), R.length < L.length →
      (∀ j, j < R.length → (tokAt L j).2 = (tokAt R j).2) →
      alignTokens L R = .error .indexError := by
  intro R
  induction R with
  | nil =>
      intro L hlen _
      cases L with
      | nil => simp at hlen
      | cons l ls => rfl
  | cons r rs ih =>
      intro L hlen hall
      cases L with
      | nil => simp at hlen
      | cons l ls =>
          have h0 : l.2 = r.2 := by
            have := hall 0 (by simp)
            simpa [tokAt, List.getD] using this
          have htail : alignTokens ls rs = .error .indexError := by
            refine ih ls (by simpa using hlen) ?_
            intro j hj
            have := hall (j + 1) (by simpa using Nat.succ_lt_succ hj)
            simpa [tokAt, List.getD] using this
          simp [alignTokens, h0, htail]

theorem alignTokens_ok :
    ∀ (L R : List (String × Option Value)), L.length ≤ R.length →
      (∀ j, j < L.length → (tokAt L j).2 = (tokAt R j).2) →
      ∃ m, alignTokens L R = .ok m := by
  intro L
  induction L with
  | nil => intro R _ _; exact ⟨[], rfl⟩
  | cons l ls ih =>
      intro R hlen hall
      cases R with
      | nil => simp at hlen
      | cons r rs =>
          have h0 : l.2 = r.2 := by
            have := hall 0 (by simp)
            simpa [tokAt, List.getD] using this
          obtain ⟨m, hm⟩ := ih rs (by simpa using hlen) (fun j hj => by
            have := hall (j + 1) (by simpa using Nat.succ_lt_succ hj)
            simpa [tokAt, List.getD] using this)
          exact ⟨(r.1, l.1) :: m, by simp [alignTokens, h0, hm]⟩

theorem add_node_entry_snd (g : Graph) (ov : List (String × Value))
    (e : String × RawAttrs) :
    (add_node_entry g ov e).2 = none ∨
      (add_node_entry g ov e).2 = some .validation := by
  unfold add_node_entry
  split
  · right; rfl
  · split
    · right; rfl
    · dsimp only
      by_cases h1 : hasNode g e.1 = true
      · rw [if_pos h1]; left; rfl
      · rw [if_neg h1]; left; rfl

theorem add_nodes_from_snd (entries : List (String × RawAttrs)) :
    ∀ (g : Graph) (ov : List (String × Value)),
      (add_nodes_from g entries ov).2 = none ∨
        (add_nodes_from g entries ov).2 = some .validation := by
  induction entries with
  | nil => intro g ov; left; rfl
  | cons e rest ih =>
      intro g ov
      simp only [add_nodes_from]
      cases he : add_node_entry g ov e with
      | mk g' r =>
          cases r with
          | none => exact ih g' ov
          | some err =>
              have hh := add_node_entry_snd g ov e
              rw [he] at hh
              simpa using hh

theorem add_edge_snd_notMergeErr (g : Graph) (u v : String) (la : LayersArg)
    (key : Option Nat) (attrs : List (String × Value)) :
    notMergeErr (add_edge g u v la key attrs).2 := by
  unfold add_edge
  split
  · exact ⟨by simp, by simp⟩
  · dsimp only
    by_cases hu : hasNode g u = true
    · by_cases hv : hasNode g v = true
      · rw [if_neg (not_not_intro hu), if_neg (not_not_intro hv)]
        split
        · exact ⟨by simp, by simp⟩
        · exact ⟨by simp, by simp⟩
      · rw [if_neg (not_not_intro hu), if_pos hv]
        exact ⟨by simp, by simp⟩
    · rw [if_pos hu]
      exact ⟨by simp, by simp⟩

theorem add_edge_entry_notMergeErr (g : Graph) (shared : RawAttrs)
    (e : EBEntry) : notMergeErr (add_edge_entry g shared e).2 := by
  cases e with
  | bad n => exact ⟨by simp [add_edge_entry], by simp [add_edge_entry]⟩
  | e3 u v dd =>
      show notMergeErr (add_edge_resolved g shared u v none dd).2
      unfold add_edge_resolved
      split
      · exact ⟨by simp, by simp⟩
      · split
        · exact ⟨by simp, by simp⟩
        · split
          · exact ⟨by simp, by simp⟩
          · exact add_edge_snd_notMergeErr g u v _ _ _
  | e4 u v k dd =>
      show notMergeErr (add_edge_resolved g shared u v (some k) dd).2
      unfold add_edge_resolved
      split
      · exact ⟨by simp, by simp⟩
      · split
        · exact ⟨by simp, by simp⟩
        · split
          · exact ⟨by simp, by simp⟩
          · exact add_edge_snd_notMergeErr g u v _ _ _

theorem add_edges_from_notMergeErr (ebunch : List EBEntry) :
    ∀ (g : Graph) (shared : RawAttrs),
      notMergeErr (add_edges_from g ebunch shared).2 := by
  induction ebunch with
  | nil =>
      intro g shared
      exact ⟨by simp [add_edges_from], by simp [add_edges_from]⟩
  | cons e rest ih =>
      intro g shared
      simp only [add_edges_from]
      cases he : add_edge_entry g shared e with
      | mk g' r =>
          cases r with
          | none => exact ih g' shared
          | some err =>
              have hh := add_edge_entry_notMergeErr g shared e
              rw [he] at hh
              exact hh

/-- **C2** (amended).  The token-comparison loop of `merge_graphs`
enumerates `self`'s tokens and subscripts `remote_tokens[i]`, so: a token
*text* mismatch at a position present in both sequences (all earlier
positions agreeing) raises the tokenization-mismatch error with `self`
unmodified; if `self` has *more* tokens than `other` (texts agreeing on
the shared prefix), the subscript fails with an `IndexError`, again before
any mutation; but if `other` has more tokens and every position of `self`
matches, **no tokenization error is raised** — the merge proceeds past
token validation (only node/edge-level errors can still occur). -/
theorem merge_graphs_token_validation :
    (∀ (g o : Graph) (i : Nat), i < (localTokens g).length →
      i < (get_tokens o "token").length →
      (tokAt (localTokens g) i).2 ≠ (tokAt (get_tokens o "token") i).2 →
      (∀ j, j < i →
        (tokAt (localTokens g) j).2 = (tokAt (get_tokens o "token") j).2) →
      merge_graphs g o = (g, some .tokenizationMismatch)) ∧
    (∀ g o : Graph, (get_tokens o "token").length < (localTokens g).length →
      (∀ j, j < (get_tokens o "token").length →
        (tokAt (localTokens g) j).2 = (tokAt (get_tokens o "token") j).2) →
      merge_graphs g o = (g, some .indexError)) ∧
    (∀ g o : Graph, (localTokens g).length ≤ (get_tokens o "token").length →
      (∀ j, j < (localTokens g).length →
        (tokAt (localTokens g) j).2 = (tokAt (get_tokens o "token") j).2) →
      notMergeErr (merge_graphs g o).2) := by
  refine ⟨?_, ?_, ?_⟩
  · intro g o i hL hR hdiff hall
    have ha := alignTokens_mismatch i (localTokens g) (get_tokens o "token")
      hL hR hdiff hall
    simp [merge_graphs, ha]
  · intro g o hlen hall
    have ha := alignTokens_short (get_tokens o "token") (localTokens g)
      hlen hall
    simp [merge_graphs, ha]
  · intro g o hlen hall
    obtain ⟨m, hm⟩ := alignTokens_ok (localTokens g) (get_tokens o "token")
      hlen hall
    simp only [merge_graphs, hm]
    cases hn : add_nodes_from g (nodesData (relabel_nodes o m)) [] with
    | mk g1 r =>
        cases r with
        | none => exact add_edges_from_notMergeErr _ g1 ⟨none, []⟩
        | some err =>
            have hh := add_nodes_from_snd (nodesData (relabel_nodes o m)) g []
            rw [hn] at hh
            simp only at hh
            rcases hh with hh | hh
            · exact absurd hh (by simp)
            · simp only [Option.some_inj] at hh
              subst hh
              exact ⟨by simp, by simp⟩

/-- **C2** counterexample: merging `CexSelf` (one token, text "x") with
`CexOtherLonger` (two tokens, texts "x", "y") — a token-count mismatch —
raises no error at all and mutates `self`, which ends up with `other`'s
extra token node `o2`. -/
theorem merge_graphs_count_mismatch_not_detected :
    (merge_graphs CexSelf CexOtherLonger).2 = none ∧
    hasNode (merge_graphs CexSelf CexOtherLonger).1 "o2" = true ∧
    hasNode CexSelf "o2" = false ∧
    (merge_graphs CexSelf CexOtherLonger).1 ≠ CexSelf := by
  decide

/-- **C2** witness: the token-validation theorem applied to a text
mismatch at position 0 (`CexSelf` vs `CexOtherMismatch`) and to a
too-short remote sequence (`CexSelf` vs `CexOtherShort`). -/
theorem merge_graphs_token_validation_witness :
    merge_graphs CexSelf CexOtherMismatch =
      (CexSelf, some .tokenizationMismatch) ∧
    merge_graphs CexSelf CexOtherShort = (CexSelf, some .indexError) :=
  ⟨merge_graphs_token_validation.1 CexSelf CexOtherMismatch 0 (by decide)
      (by decide) (by decide)
      (fun j hj => absurd hj (Nat.not_lt_zero j)),
   merge_graphs_token_validation.2.1 CexSelf CexOtherShort (by decide)
      (by
        intro j hj
        have h0 : (get_tokens CexOtherShort "token").length = 0 := by decide
        rw [h0] at hj
        exact absurd hj (Nat.not_lt_zero j))⟩

theorem oelse_none_right {γ : Type} (a : Option γ) : oelse a none = a := by
  cases a <;> rfl

theorem oelse_assoc {γ : Type} (a b c : Option γ) :
    oelse (oelse a b) c = oelse a (oelse b c) := by
  cases a <;> rfl

theorem stripLayers_keys_nodup (a : List (String × Value))
    (h : (a.map Prod.fst).Nodup) :
    ((stripLayers a).map Prod.fst).Nodup :=
  ((List.filter_sublist a).map Prod.fst).nodup h

theorem lastVal_init (k : String)
    (cs : List (LayersArg × List (String × Value))) :
    ∀ init, cs.foldl (fun acc c => oelse (dget c.2 k) acc) init =
      oelse (lastVal cs k) init := by
  induction cs with
  | nil => intro init; rfl
  | cons c cs ih =>
      intro init
      show cs.foldl _ (oelse (dget c.2 k) init) = oelse (lastVal (c :: cs) k) init
      rw [ih (oelse (dget c.2 k) init)]
      have h2 : lastVal (c :: cs) k =
          oelse (lastVal cs k) (dget c.2 k) := by
        show cs.foldl _ (oelse (dget c.2 k) none) = _
        rw [ih (oelse (dget c.2 k) none), oelse_none_right]
      rw [h2, oelse_assoc]

theorem lastVal_cons (k : String) (c : LayersArg × List (String × Value))
    (cs : List (LayersArg × List (String × Value))) :
    lastVal (c :: cs) k = oelse (lastVal cs k) (dget c.2 k) := by
  show cs.foldl _ (oelse (dget c.2 k) none) = _
  rw [lastVal_init k cs (oelse (dget c.2 k) none), oelse_none_right]

theorem dget_attrsFold (k : String) (hk : k ≠ "layers") :
    ∀ (cs : List (LayersArg × List (String × Value)))
      (a : List (String × Value)),
      (∀ c ∈ cs, (c.2.map Prod.fst).Nodup) →
      dget (cs.foldl (fun x c => updMap x (stripLayers c.2)) a) k =
        oelse (lastVal cs k) (dget a k) := by
  intro cs
  induction cs with
  | nil => intro a _; rfl
  | cons c cs ih =>
      intro a hnd
      show dget (cs.foldl _ (updMap a (stripLayers c.2))) k = _
      rw [ih (updMap a (stripLayers c.2)) (fun c hc => hnd c (by simp [hc]))]
      rw [dget_updMap a (stripLayers c.2) k
        (stripLayers_keys_nodup c.2 (hnd c (by simp)))]
      rw [dget_stripLayers c.2 k hk, ← oelse_assoc, ← lastVal_cons]

theorem layersFold_init (cs : List (LayersArg × List (String × Value))) :
    ∀ s : Finset String,
      cs.foldl (fun x c => x ∪ (checkLayers c.1).getD ∅) s =
        s ∪ cs.foldl (fun x c => x ∪ (checkLayers c.1).getD ∅) ∅ := by
  induction cs with
  | nil => intro s; simp
  | cons c cs ih =>
      intro s
      show cs.foldl _ (s ∪ (checkLayers c.1).getD ∅) = _
      rw [ih (s ∪ (checkLayers c.1).getD ∅)]
      conv_rhs =>
        rw [show (c :: cs).foldl (fun x c => x ∪ (checkLayers c.1).getD ∅) ∅ =
          cs.foldl (fun x c => x ∪ (checkLayers c.1).getD ∅)
            (∅ ∪ (checkLayers c.1).getD ∅) from rfl]
      rw [ih (∅ ∪ (checkLayers c.1).getD ∅), Finset.empty_union,
        Finset.union_assoc]

theorem add_node_existing_eq (g : Graph) (n : String) (la : LayersArg)
    (ls : Finset String) (attrs : List (String × Value))
    (hc : checkLayers la = some ls) (hn : hasNode g n = true) :
    (add_node g n la attrs).1 = Graph.mk
      (dset g.node n
        ⟨((dget g.node n).getD ⟨∅, []⟩).layers ∪ ls,
         updMap ((dget g.node n).getD ⟨∅, []⟩).attrs (stripLayers attrs)⟩)
      g.succ g.pred g.tokens g.root g.ns g.name := by
  simp only [add_node, hc]
  rw [if_pos hn]

theorem add_node_new_eq (g : Graph) (n : String) (la : LayersArg)
    (ls : Finset String) (attrs : List (String × Value))
    (hc : checkLayers la = some ls) (hn : ¬ hasNode g n = true) :
    (add_node g n la attrs).1 = Graph.mk
      (dset g.node n ⟨ls, stripLayers attrs⟩)
      (dset g.succ n []) (dset g.pred n [])
      g.tokens g.root g.ns g.name := by
  simp only [add_node, hc]
  rw [if_neg hn]

theorem applyNodeCalls_aux (calls : List (LayersArg × List (String × Value))) :
    ∀ (g : Graph) (n : String) (r : AttrRec),
      (∀ c ∈ calls, (checkLayers c.1).isSome = true) →
      hasNode g n = true → nodeRec g n = some r →
      nodeRec (applyNodeCalls g n calls) n =
        some ⟨calls.foldl (fun s c => s ∪ (checkLayers c.1).getD ∅) r.layers,
              calls.foldl (fun a c => updMap a (stripLayers c.2)) r.attrs⟩ := by
  induction calls with
  | nil => intro g n r _ _ hr; exact hr
  | cons c cs ih =>
      intro g n r hv hn hr
      obtain ⟨ls, hc⟩ := Option.isSome_iff_exists.mp (hv c (by simp))
      have hge : (dget g.node n).getD ⟨∅, []⟩ = r := by
        unfold nodeRec at hr; rw [hr]; rfl
      have heq := add_node_existing_eq g n c.1 ls c.2 hc hn
      have hrec : nodeRec (add_node g n c.1 c.2).1 n =
          some ⟨r.layers ∪ ls, updMap r.attrs (stripLayers c.2)⟩ := by
        rw [heq]
        unfold nodeRec
        show dget (dset g.node n _) n = _
        rw [dget_dset, if_pos rfl, hge]
      have hn' : hasNode (add_node g n c.1 c.2).1 n = true := by
        rw [heq]; exact hn
      have hstep := ih (add_node g n c.1 c.2).1 n
        ⟨r.layers ∪ ls, updMap r.attrs (stripLayers c.2)⟩
        (fun c2 hc2 => hv c2 (by simp [hc2])) hn' hrec
      show nodeRec (applyNodeCalls (add_node g n c.1 c.2).1 n cs) n = _
      rw [hstep]
      simp [hc]

theorem add_edge_existing_eq (g : Graph) (u v : String) (la : LayersArg)
    (ls : Finset String) (ke : Nat) (attrs : List (String × Value))
    (kd : Keydict) (hc : checkLayers la = some ls)
    (hu : hasNode g u = true) (hv : hasNode g v = true)
    (hkd : succAt g u v = some kd) :
    (add_edge g u v la (some ke) attrs).1 = Graph.mk g.node
      (dset2 g.succ u v (dset kd ke
        ⟨((dget kd ke).getD ⟨∅, []⟩).layers ∪ ls,
         updMap ((dget kd ke).getD ⟨∅, []⟩).attrs (stripLayers attrs)⟩))
      (dset2 g.pred v u (dset kd ke
        ⟨((dget kd ke).getD ⟨∅, []⟩).layers ∪ ls,
         updMap ((dget kd ke).getD ⟨∅, []⟩).attrs (stripLayers attrs)⟩))
      g.tokens g.root g.ns g.name := by
  simp only [add_edge, hc]
  rw [if_neg (not_not_intro hu), if_neg (not_not_intro hv), hkd]

theorem add_edge_new_eq (g : Graph) (u v : String) (la : LayersArg)
    (ls : Finset String) (ke : Nat) (attrs : List (String × Value))
    (hc : checkLayers la = some ls)
    (hu : hasNode g u = true) (hv : hasNode g v = true)
    (hkd : succAt g u v = none) :
    (add_edge g u v la (some ke) attrs).1 = Graph.mk g.node
      (dset2 g.succ u v [(ke, ⟨ls, stripLayers attrs⟩)])
      (dset2 g.pred v u [(ke, ⟨ls, stripLayers attrs⟩)])
      g.tokens g.root g.ns g.name := by
  simp only [add_edge, hc]
  rw [if_neg (not_not_intro hu), if_neg (not_not_intro hv), hkd]
  rfl

theorem applyEdgeCalls_aux (calls : List (LayersArg × List (String × Value))) :
    ∀ (g : Graph) (u v : String) (ke : Nat) (kd : Keydict) (r : AttrRec),
      (∀ c ∈ calls, (checkLayers c.1).isSome = true) →
      hasNode g u = true → hasNode g v = true →
      succAt g u v = some kd → dget kd ke = some r →
      edgeRec (applyEdgeCalls g u v ke calls) u v ke =
        some ⟨calls.foldl (fun s c => s ∪ (checkLayers c.1).getD ∅) r.layers,
              calls.foldl (fun a c => updMap a (stripLayers c.2)) r.attrs⟩ := by
  induction calls with
  | nil =>
      intro g u v ke kd r _ _ _ hkd hr
      show (succAt g u v).bind (fun kd => dget kd ke) = _
      rw [hkd, Option.some_bind, hr]
      rfl
  | cons c cs ih =>
      intro g u v ke kd r hv2 hu hv hkd hr
      obtain ⟨ls, hc⟩ := Option.isSome_iff_exists.mp (hv2 c (by simp))
      have hge : (dget kd ke).getD ⟨∅, []⟩ = r := by rw [hr]; rfl
      have heq := add_edge_existing_eq g u v c.1 ls ke c.2 kd hc hu hv hkd
      set r2 : AttrRec := ⟨r.layers ∪ ls, updMap r.attrs (stripLayers c.2)⟩
      have hkd' : succAt (add_edge g u v c.1 (some ke) c.2).1 u v =
          some (dset kd ke r2) := by
        rw [heq]
        show dget2 (dset2 g.succ u v _) u v = _
        rw [dget2_dset2, if_pos ⟨rfl, rfl⟩, hge]
      have hr' : dget (dset kd ke r2) ke = some r2 := by
        rw [dget_dset, if_pos rfl]
      have hu' : hasNode (add_edge g u v c.1 (some ke) c.2).1 u = true := by
        rw [heq]
        exact isSome_dget_dset g.succ u u _ (Or.inr rfl)
      have hv' : hasNode (add_edge g u v c.1 (some ke) c.2).1 v = true := by
        rw [heq]
        exact isSome_dget_dset g.succ u v _ (Or.inl hv)
      have hstep := ih (add_edge g u v c.1 (some ke) c.2).1 u v ke
        (dset kd ke r2) r2 (fun c2 hc2 => hv2 c2 (by simp [hc2])) hu' hv'
        hkd' hr'
      show edgeRec (applyEdgeCalls (add_edge g u v c.1 (some ke) c.2).1
        u v ke cs) u v ke = _
      rw [hstep]
      simp [r2, hc]

/-- **C1**: for every sequence of valid `add_node` calls targeting a fresh
node id, the resulting `layers` attribute is the union of every `layers`
argument passed, while every non-layers attribute key holds the value from
the most recent call that supplied it; and the same holds for repeated
`add_edge` calls resolving to the same `(source, target, key)` edge (the
key given explicitly, the edge initially absent at that key). -/
theorem layers_union_attr_overwrite :
    (∀ (g : Graph) (n : String)
       (calls : List (LayersArg × List (String × Value))) (k : String),
      calls ≠ [] → hasNode g n = false →
      (∀ c ∈ calls, (checkLayers c.1).isSome = true) →
      (∀ c ∈ calls, (c.2.map Prod.fst).Nodup) → k ≠ "layers" →
      nodeLayers (applyNodeCalls g n calls) n = unionAllLayers calls ∧
      nodeAttr (applyNodeCalls g n calls) n k = lastVal calls k) ∧
    (∀ (g : Graph) (u v : String) (ke : Nat)
       (calls : List (LayersArg × List (String × Value))) (k : String),
      calls ≠ [] → hasNode g u = true → hasNode g v = true →
      edgeRec g u v ke = none →
      (∀ c ∈ calls, (checkLayers c.1).isSome = true) →
      (∀ c ∈ calls, (c.2.map Prod.fst).Nodup) → k ≠ "layers" →
      edgeLayers (applyEdgeCalls g u v ke calls) u v ke =
        unionAllLayers calls ∧
      edgeAttr (applyEdgeCalls g u v ke calls) u v ke k = lastVal calls k) := by
  constructor
  · intro g n calls k hne hn hv hnd hk
    obtain ⟨c, cs, rfl⟩ := List.exists_cons_of_ne_nil hne
    obtain ⟨ls0, hc0⟩ := Option.isSome_iff_exists.mp (hv c (by simp))
    have hn' : ¬ hasNode g n = true := by simp [hn]
    have heq := add_node_new_eq g n c.1 ls0 c.2 hc0 hn'
    have hrec : nodeRec (add_node g n c.1 c.2).1 n =
        some ⟨ls0, stripLayers c.2⟩ := by
      rw [heq]
      show dget (dset g.node n _) n = _
      rw [dget_dset, if_pos rfl]
    have hn2 : hasNode (add_node g n c.1 c.2).1 n = true := by
      rw [heq]
      exact isSome_dget_dset g.succ n n [] (Or.inr rfl)
    have haux := applyNodeCalls_aux cs (add_node g n c.1 c.2).1 n
      ⟨ls0, stripLayers c.2⟩ (fun c2 hc2 => hv c2 (by simp [hc2])) hn2 hrec
    have happly : applyNodeCalls g n (c :: cs) =
        applyNodeCalls (add_node g n c.1 c.2).1 n cs := rfl
    constructor
    · unfold nodeLayers
      rw [happly, haux]
      show cs.foldl (fun s c => s ∪ (checkLayers c.1).getD ∅) ls0 =
        unionAllLayers (c :: cs)
      rw [show unionAllLayers (c :: cs) =
        cs.foldl (fun s c => s ∪ (checkLayers c.1).getD ∅)
          (∅ ∪ (checkLayers c.1).getD ∅) from rfl, hc0]
      simp only [Option.getD_some, Finset.empty_union]
    · unfold nodeAttr
      rw [happly, haux]
      simp only [Option.some_bind]
      show dget (cs.foldl (fun a c => updMap a (stripLayers c.2))
        (stripLayers c.2)) k = _
      rw [dget_attrsFold k hk cs (stripLayers c.2)
        (fun c2 hc2 => hnd c2 (by simp [hc2]))]
      rw [dget_stripLayers c.2 k hk, ← lastVal_cons]
  · intro g u v ke calls k hne hu hv hini hv2 hnd hk
    obtain ⟨c, cs, rfl⟩ := List.exists_cons_of_ne_nil hne
    obtain ⟨ls0, hc0⟩ := Option.isSome_iff_exists.mp (hv2 c (by simp))
    have happly : applyEdgeCalls g u v ke (c :: cs) =
        applyEdgeCalls (add_edge g u v c.1 (some ke) c.2).1 u v ke cs := rfl
    cases hs : succAt g u v with
    | some kd =>
        have hdg : dget kd ke = none := by
          unfold edgeRec at hini
          rw [hs] at hini
          simpa using hini
        have heq := add_edge_existing_eq g u v c.1 ls0 ke c.2 kd hc0 hu hv hs
        rw [hdg] at heq
        have hkd2 : succAt (add_edge g u v c.1 (some ke) c.2).1 u v =
            some (dset kd ke
              ⟨(∅ : Finset String) ∪ ls0, updMap [] (stripLayers c.2)⟩) := by
          rw [heq]
          show dget2 (dset2 g.succ u v _) u v = _
          rw [dget2_dset2, if_pos ⟨rfl, rfl⟩]
          rfl
        have hr2 : dget (dset kd ke
            (⟨(∅ : Finset String) ∪ ls0, updMap [] (stripLayers c.2)⟩ :
              AttrRec)) ke =
            some ⟨(∅ : Finset String) ∪ ls0, updMap [] (stripLayers c.2)⟩ := by
          rw [dget_dset, if_pos rfl]
        have hu2 : hasNode (add_edge g u v c.1 (some ke) c.2).1 u = true := by
          rw [heq]
          exact isSome_dget_dset g.succ u u _ (Or.inr rfl)
        have hv3 : hasNode (add_edge g u v c.1 (some ke) c.2).1 v = true := by
          rw [heq]
          exact isSome_dget_dset g.succ u v _ (Or.inl hv)
        have haux := applyEdgeCalls_aux cs (add_edge g u v c.1 (some ke) c.2).1
          u v ke _ _ (fun c2 hc2 => hv2 c2 (by simp [hc2])) hu2 hv3 hkd2 hr2
        constructor
        · unfold edgeLayers
          rw [happly, haux]
          show cs.foldl (fun s c => s ∪ (checkLayers c.1).getD ∅)
            ((∅ : Finset String) ∪ ls0) = unionAllLayers (c :: cs)
          rw [show unionAllLayers (c :: cs) =
            cs.foldl (fun s c => s ∪ (checkLayers c.1).getD ∅)
              (∅ ∪ (checkLayers c.1).getD ∅) from rfl, hc0]
          simp only [Option.getD_some]
        · unfold edgeAttr
          rw [happly, haux]
          simp only [Option.some_bind]
          show dget (cs.foldl (fun a c => updMap a (stripLayers c.2))
            (updMap [] (stripLayers c.2))) k = _
          rw [dget_attrsFold k hk cs (updMap [] (stripLayers c.2))
            (fun c2 hc2 => hnd c2 (by simp [hc2]))]
          rw [dget_updMap [] (stripLayers c.2) k
            (stripLayers_keys_nodup c.2 (hnd c (by simp)))]
          rw [dget_stripLayers c.2 k hk]
          show oelse (lastVal cs k) (oelse (dget c.2 k) none) = _
          rw [oelse_none_right, ← lastVal_cons]
    | none =>
        have heq := add_edge_new_eq g u v c.1 ls0 ke c.2 hc0 hu hv hs
        have hkd2 : succAt (add_edge g u v c.1 (some ke) c.2).1 u v =
            some [(ke, ⟨ls0, stripLayers c.2⟩)] := by
          rw [heq]
          show dget2 (dset2 g.succ u v _) u v = _
          rw [dget2_dset2, if_pos ⟨rfl, rfl⟩]
        have hr2 : dget [(ke, (⟨ls0, stripLayers c.2⟩ : AttrRec))] ke =
            some ⟨ls0, stripLayers c.2⟩ := by
          simp [dget]
        have hu2 : hasNode (add_edge g u v c.1 (some ke) c.2).1 u = true := by
          rw [heq]
          exact isSome_dget_dset g.succ u u _ (Or.inr rfl)
        have hv3 : hasNode (add_edge g u v c.1 (some ke) c.2).1 v = true := by
          rw [heq]
          exact isSome_dget_dset g.succ u v _ (Or.inl hv)
        have haux := applyEdgeCalls_aux cs (add_edge g u v c.1 (some ke) c.2).1
          u v ke _ _ (fun c2 hc2 => hv2 c2 (by simp [hc2])) hu2 hv3 hkd2 hr2
        constructor
        · unfold edgeLayers
          rw [happly, haux]
          show cs.foldl (fun s c => s ∪ (checkLayers c.1).getD ∅) ls0 =
            unionAllLayers (c :: cs)
          rw [show unionAllLayers (c :: cs) =
            cs.foldl (fun s c => s ∪ (checkLayers c.1).getD ∅)
              (∅ ∪ (checkLayers c.1).getD ∅) from rfl, hc0]
          simp only [Option.getD_some, Finset.empty_union]
        · unfold edgeAttr
          rw [happly, haux]
          simp only [Option.some_bind]
          show dget (cs.foldl (fun a c => updMap a (stripLayers c.2))
            (stripLayers c.2)) k = _
          rw [dget_attrsFold k hk cs (stripLayers c.2)
            (fun c2 hc2 => hnd c2 (by simp [hc2]))]
          rw [dget_stripLayers c.2 k hk, ← lastVal_cons]

/-- **C1** witness: the spec's own example — adding `n` with
`{'layers': {'a'}, 'weight': 1}` then `{'layers': {'b'}, 'weight': 2}`
yields layers `{'a','b'}` and weight `2`; and the analogous double
`add_edge` at the fixed key `0`. -/
theorem layers_union_attr_overwrite_witness :
    (nodeLayers (applyNodeCalls emptyGraph "n"
        [(oneLayer "a", [("weight", .vint 1)]),
         (oneLayer "b", [("weight", .vint 2)])]) "n" =
      unionAllLayers [(oneLayer "a", [("weight", .vint 1)]),
        (oneLayer "b", [("weight", .vint 2)])] ∧
     nodeAttr (applyNodeCalls emptyGraph "n"
        [(oneLayer "a", [("weight", .vint 1)]),
         (oneLayer "b", [("weight", .vint 2)])]) "n" "weight" =
      lastVal [(oneLayer "a", [("weight", .vint 1)]),
        (oneLayer "b", [("weight", .vint 2)])] "weight") ∧
    (edgeLayers (applyEdgeCalls CexTwoNodes "u" "v" 0
        [(oneLayer "a", [("weight", .vint 1)]),
         (oneLayer "b", [("weight", .vint 2)])]) "u" "v" 0 =
      unionAllLayers [(oneLayer "a", [("weight", .vint 1)]),
        (oneLayer "b", [("weight", .vint 2)])] ∧
     edgeAttr (applyEdgeCalls CexTwoNodes "u" "v" 0
        [(oneLayer "a", [("weight", .vint 1)]),
         (oneLayer "b", [("weight", .vint 2)])]) "u" "v" 0 "weight" =
      lastVal [(oneLayer "a", [("weight", .vint 1)]),
        (oneLayer "b", [("weight", .vint 2)])] "weight") ∧
    unionAllLayers [(oneLayer "a", [("weight", .vint 1)]),
      (oneLayer "b", [("weight", .vint 2)])] = {"a", "b"} ∧
    lastVal [(oneLayer "a", [("weight", .vint 1)]),
      (oneLayer "b", [("weight", .vint 2)])] "weight" = some (.vint 2) :=
  ⟨layers_union_attr_overwrite.1 emptyGraph "n"
      [(oneLayer "a", [("weight", .vint 1)]),
       (oneLayer "b", [("weight", .vint 2)])] "weight"
      (by decide) (by decide) (by decide) (by decide) (by decide),
   layers_union_attr_overwrite.2 CexTwoNodes "u" "v" 0
      [(oneLayer "a", [("weight", .vint 1)]),
       (oneLayer "b", [("weight", .vint 2)])] "weight"
      (by decide) (by decide) (by decide) (by decide) (by decide)
      (by decide) (by decide),
   by decide, by decide⟩

/-- **C9** witness: the decomposition theorem applied to the concrete
failing bunch of `CexBunchRun`, plus the bad-arity-first conjunct applied
to `CexTwoNodes`. -/
theorem add_edges_from_partial_mutation_witness :
    add_edges_from CexTwoNodes
        ([.e3 "u" "v" ⟨some (oneLayer "x"), []⟩] ++ [.bad 2]) ⟨none, []⟩ =
      add_edges_from
        (add_edges_from CexTwoNodes
          [.e3 "u" "v" ⟨some (oneLayer "x"), []⟩] ⟨none, []⟩).1
        [.bad 2] ⟨none, []⟩ ∧
    add_edges_from CexTwoNodes [.bad 2] ⟨none, []⟩ =
      (CexTwoNodes, some .validation) :=
  ⟨add_edges_from_partial_mutation.1 CexTwoNodes
      [.e3 "u" "v" ⟨some (oneLayer "x"), []⟩] [.bad 2] ⟨none, []⟩
      (by decide),
   add_edges_from_partial_mutation.2.1 CexTwoNodes 2 [] ⟨none, []⟩⟩

end DiscourseGraphs
